import Mathlib

/-
  Verification of the Abalone game core
  (open_spiel/games/abalone/abalone.h, abalone.cc).

  Shallow embedding conventions:
  - `CellState`, `Coordinate`, `Move`, the `Offsets` and `Sisters` tables and the
    classic initial layout are transcribed from abalone.h.
  - The board (`std::array<CellState, 81>` indexed by `r * kNumCols + c`) is
    modelled as a function `Fin 9 → Fin 9 → CellState`.  Every `BoardAt` /
    `SetBoard` call in the C++ core except one is dominated by an explicit
    bound check, so a total model that returns `kInvalid` (respectively leaves
    the board unchanged) outside the grid agrees with the source on every
    executed path.  The exception is the visited-cell read of the slide
    validator's walk (abalone.cc:123), which the C++ performs through the raw
    flat index `r * 9 + c`; it is modelled by `BoardAtFlat`, which reproduces
    the flat-array aliasing (an out-of-range column wraps into the adjacent
    row).
  - C++ `int` arithmetic on coordinates is modelled by `ℤ` (no overflow occurs:
    all values stay tiny), C++ `double`/`float` returns by `ℚ` with the constant
    `marble_reward = 0.1f` rendered as `1/10`.  The only comparison the program
    performs on these values is `returns[current_player_] == 1.0`; on integer
    marble balances in [-81, 81] the float expression `balance * 0.1f` equals
    `1.0` exactly when `balance = 10` (10 * 0.1f rounds to 1.0f), which is
    exactly when the rational expression `balance * (1/10)` equals `1`, so the
    rational model makes the same comparison decisions as the float code.
  - Bounded `while`/`for` loops are modelled by structural recursion on an
    explicit iteration bound (`fuel`) chosen at each call site to be at least
    the maximal possible number of iterations of the C++ loop, so the
    fuel-exhaustion branch is never taken on the calls the theorems speak about.
-/

set_option maxHeartbeats 4000000
set_option maxRecDepth 8000

namespace Abalone

/-- Cell states, from `enum CellState` in abalone.h
    (`kInvalid = -2`, `kEmpty = -1`, `kPlayer1 = 0`, `kPlayer2 = 1`). -/
inductive CellState : Type where
  | kInvalid : CellState
  | kEmpty : CellState
  | kPlayer1 : CellState
  | kPlayer2 : CellState
deriving DecidableEq, Repr

open CellState

/-- Grid coordinate, from `struct Coordinate` in abalone.h. -/
structure Coordinate : Type where
  m_row : ℤ
  m_column : ℤ
deriving DecidableEq, Repr

/-- Directions are the six values `RIGHT = 0, UP_RIGHT, UP_LEFT, LEFT,
    DOWN_LEFT, DOWN_RIGHT = 5` of `enum Direction`; we use `Fin 6`. -/
abbrev Direction : Type := Fin 6

/-- Offset table `Offsets[]` from abalone.h: (row, column) unit offset of each
    direction. -/
def Offsets : Direction → Coordinate := fun d =>
  match d with
  | ⟨0, _⟩ => ⟨0, 1⟩      -- RIGHT
  | ⟨1, _⟩ => ⟨-1, 1⟩     -- UP_RIGHT
  | ⟨2, _⟩ => ⟨-1, 0⟩     -- UP_LEFT
  | ⟨3, _⟩ => ⟨0, -1⟩     -- LEFT
  | ⟨4, _⟩ => ⟨1, -1⟩     -- DOWN_LEFT
  | ⟨5, _⟩ => ⟨1, 0⟩      -- DOWN_RIGHT

/-- Sister-direction table `Sisters[]` from abalone.h (equal to `dir+1`,
    `dir+2` mod 6, as the source comment notes). -/
def Sisters : Direction → Direction × Direction := fun d =>
  match d with
  | ⟨0, _⟩ => (1, 2)
  | ⟨1, _⟩ => (2, 3)
  | ⟨2, _⟩ => (3, 4)
  | ⟨3, _⟩ => (4, 5)
  | ⟨4, _⟩ => (5, 0)
  | ⟨5, _⟩ => (0, 1)

/-- The board: `std::array<CellState, kNumCells> board_` with
    `kNumRows = kNumCols = 9`, accessed as `board_[row * kNumCols + column]`. -/
def Board : Type := Fin 9 → Fin 9 → CellState

/-- Model of `AbaloneState::BoardAt(row, column)`.  The C++ accessor performs no bound
    check; every call in the core is guarded, so the value returned here
    outside the grid (`kInvalid`) is never observed differently by the code.
    (The in-line validator explicitly substitutes `kInvalid` for out-of-grid
    reads, which this total function builds in.) -/
def BoardAt (b : Board) (r c : ℤ) : CellState :=
  if h : 0 ≤ r ∧ r < 9 ∧ 0 ≤ c ∧ c < 9 then
    b ⟨r.toNat, by omega⟩ ⟨c.toNat, by omega⟩
  else kInvalid

/-- Model of `AbaloneState::SetBoard(row, column, state)`.  As for `BoardAt`, all call
    sites are guarded by bound checks, so the out-of-grid behaviour (no-op) is
    never exercised. -/
def SetBoard (b : Board) (r c : ℤ) (v : CellState) : Board :=
  if h : 0 ≤ r ∧ r < 9 ∧ 0 ≤ c ∧ c < 9 then
    Function.update b ⟨r.toNat, by omega⟩
      (Function.update (b ⟨r.toNat, by omega⟩) ⟨c.toNat, by omega⟩ v)
  else b

/-- Model of the unguarded C++ read `board_[row * kNumCols + column]`: the
    accessor `AbaloneState::BoardAt` performs no bound check, and the
    stepped-cell walk of `Move::_IsValidSlide` (abalone.cc:123) calls it at
    positions that can leave the grid.  Within the 81-cell array the flat
    index aliases: an out-of-range column wraps into the adjacent row (for
    example (3, 9) reads cell (4, 0)).  An index outside the array is
    undefined behaviour in C++; the model returns `kInvalid` there, a total
    extension no defined execution distinguishes. -/
def BoardAtFlat (b : Board) (r c : ℤ) : CellState :=
  if h : 0 ≤ r * 9 + c ∧ r * 9 + c < 81 then
    b ⟨(r * 9 + c).toNat / 9, by omega⟩ ⟨(r * 9 + c).toNat % 9, by omega⟩
  else kInvalid

/-- Number of cells holding value `t`, used to model the marble-counting loop
    of `AbaloneState::Returns`. -/
def countCell (b : Board) (t : CellState) : ℕ :=
  ∑ r : Fin 9, ∑ c : Fin 9, if b r c = t then 1 else 0

/-- Model of `PlayerToState` restricted to real players (0 ↦ kPlayer1, 1 ↦ kPlayer2);
    the other branches of the C++ switch are never reached from the modelled,
    non-terminal call sites. -/
def PlayerToState (p : Fin 2) : CellState :=
  if p = 0 then kPlayer1 else kPlayer2

/-- A move, from `struct Move` in abalone.cc. -/
structure Move : Type where
  m_direction : Direction
  m_start : Coordinate
  m_end : Coordinate
deriving DecidableEq, Repr

/-- Model of `ActionToMove` (abalone.cc): successive modulo/divide extraction of
    subtype, direction, column, row, then reconstruction of `m_end`.
    `kNumActionsPerDirection = 5`, `Direction_Last = 6`, `kNumCols = 9`.
    The C++ function performs no range check on `moveId`. -/
def ActionToMove (moveId : ℕ) : Move :=
  let moveType := moveId % 5
  let remains1 := moveId / 5
  let dir : Direction := ⟨remains1 % 6, by omega⟩
  let remains2 := remains1 / 6
  let column : ℤ := (remains2 % 9 : ℕ)
  let row : ℤ := (remains2 / 9 : ℕ)
  let offset := Offsets dir
  let slideF := Offsets (dir + 1)
  let slideB := Offsets (dir + 2)
  let endPoint : Coordinate :=
    if moveType = 0 then ⟨row + offset.m_row, column + offset.m_column⟩
    else if moveType = 1 then ⟨row + slideF.m_row, column + slideF.m_column⟩
    else if moveType = 2 then ⟨row + slideB.m_row, column + slideB.m_column⟩
    else if moveType = 3 then ⟨row + 2 * slideF.m_row, column + 2 * slideF.m_column⟩
    else ⟨row + 2 * slideB.m_row, column + 2 * slideB.m_column⟩
  ⟨dir, ⟨row, column⟩, endPoint⟩

/-- Model of `MoveToAction` (abalone.cc): pack row, column, direction, then recover the
    subtype by testing `m_end` against the plain offset, the two sister
    offsets, and the doubled sister offsets, in the source's order. -/
def MoveToAction (move : Move) : ℤ :=
  let base :=
    ((move.m_start.m_row * 9 + move.m_start.m_column) * 6
      + ((move.m_direction : ℕ) : ℤ)) * 5
  let offset := Offsets move.m_direction
  if move.m_start.m_row + offset.m_row ≠ move.m_end.m_row ∨
      move.m_start.m_column + offset.m_column ≠ move.m_end.m_column then
    let slideF := Offsets (Sisters move.m_direction).1
    let slideB := Offsets (Sisters move.m_direction).2
    if move.m_start.m_row + slideF.m_row = move.m_end.m_row ∧
        move.m_start.m_column + slideF.m_column = move.m_end.m_column then
      base + 1
    else if move.m_start.m_row + slideB.m_row = move.m_end.m_row ∧
        move.m_start.m_column + slideB.m_column = move.m_end.m_column then
      base + 2
    else if move.m_start.m_row + slideF.m_row + slideF.m_row = move.m_end.m_row ∧
        move.m_start.m_column + slideF.m_column + slideF.m_column = move.m_end.m_column then
      base + 3
    else if move.m_start.m_row + slideB.m_row + slideB.m_row = move.m_end.m_row ∧
        move.m_start.m_column + slideB.m_column + slideB.m_column = move.m_end.m_column then
      base + 4
    else base
  else base

/-- The walk inside `Move::_IsValidSlide`: `for (i = 0; i < size; ++i)`,
    checking that the visited cell holds `player` and that its translation by
    the move-direction offset `(dirR, dirC)` is inside the grid and empty,
    stepping by the normalized line vector `(slideR, slideC)`.  The
    visited-cell read (abalone.cc:123) is not bounds-guarded in the C++ and
    goes through the flat array, so it is modelled with `BoardAtFlat`; the
    destination read is dominated by the two bound checks before it, so the
    grid accessor is faithful there. -/
def slideWalk (b : Board) (player : CellState) (dirR dirC slideR slideC : ℤ) :
    ℤ → ℤ → ℕ → Bool
  | _, _, 0 => true
  | r, c, Nat.succ n =>
    if BoardAtFlat b r c ≠ player then false
    else
      let destination_row := r + dirR
      let destination_column := c + dirC
      if destination_row < 0 ∨ 9 ≤ destination_row then false
      else if destination_column < 0 ∨ 9 ≤ destination_column then false
      else if BoardAt b destination_row destination_column ≠ kEmpty then false
      else slideWalk b player dirR dirC slideR slideC (r + slideR) (c + slideC) n

/-- Model of `Move::_IsValidSlide` (abalone.cc).  The pre-loop read of the
    start cell is reached only from `Move::IsValid` after its bound checks, so
    the grid accessor is faithful for it; the walk's visited-cell reads go
    through `BoardAtFlat` (see `slideWalk`). -/
def Move._IsValidSlide (m : Move) (b : Board) : Bool :=
  let player := BoardAt b m.m_start.m_row m.m_start.m_column
  if player = kEmpty ∨ player = kInvalid then false
  else
    let rSize := (m.m_end.m_row - m.m_start.m_row).natAbs + 1
    let cSize := (m.m_end.m_column - m.m_start.m_column).natAbs + 1
    if 3 < rSize then false
    else if 3 < cSize then false
    else
      let slide_line := max (min (m.m_end.m_row - m.m_start.m_row) 1) (-1)
      let slide_column := max (min (m.m_end.m_column - m.m_start.m_column) 1) (-1)
      let valid_direction := (List.finRange 6).any fun dir =>
        decide ((Offsets dir).m_row = slide_line ∧ (Offsets dir).m_column = slide_column)
      if ¬ valid_direction then false
      else
        let direction := Offsets m.m_direction
        let size := max cSize rSize
        slideWalk b player direction.m_row direction.m_column slide_line slide_column
          m.m_start.m_row m.m_start.m_column size

/-- Content of the i-th cell along the line from `m_start` stepping by
    `m_end - m_start`, out-of-grid positions reading as `kInvalid`; this is
    `line_content[i]` in `Move::IsValid` (the C++ loop accumulates
    `current += vector`, i.e. position `start + i * vector`). -/
def lineContent (b : Board) (m : Move) (i : ℕ) : CellState :=
  BoardAt b (m.m_start.m_row + i * (m.m_end.m_row - m.m_start.m_row))
    (m.m_start.m_column + i * (m.m_end.m_column - m.m_start.m_column))

/-- Model of `Move::IsValid` (abalone.cc).  The C++ code reads the acting player as
    `PlayerToState(_state.CurrentPlayer())`; on a non-terminal state
    `CurrentPlayer()` is `current_player_`, which we pass as `p`. -/
def Move.IsValid (m : Move) (b : Board) (p : Fin 2) : Bool :=
  if m.m_start.m_row < 0 ∨ 9 ≤ m.m_start.m_row then false
  else if m.m_start.m_column < 0 ∨ 9 ≤ m.m_start.m_column then false
  else if m.m_end.m_row < 0 ∨ 9 ≤ m.m_end.m_row then false
  else if m.m_end.m_column < 0 ∨ 9 ≤ m.m_end.m_column then false
  else
    let player := BoardAt b m.m_start.m_row m.m_start.m_column
    if player ≠ PlayerToState p then false
    else
      let vectorR := m.m_end.m_row - m.m_start.m_row
      let vectorC := m.m_end.m_column - m.m_start.m_column
      let direction := Offsets m.m_direction
      if direction.m_row ≠ vectorR ∨ direction.m_column ≠ vectorC then
        m._IsValidSlide b
      else
        let opponent := if player = kPlayer1 then kPlayer2 else kPlayer1
        let l1 := lineContent b m 1
        let l2 := lineContent b m 2
        let l3 := lineContent b m 3
        let l4 := lineContent b m 4
        let l5 := lineContent b m 5
        if l1 = kEmpty then true
        else if l1 = player ∧ l2 = kEmpty then true
        else if l1 = player ∧ l2 = opponent ∧ (l3 = kInvalid ∨ l3 = kEmpty) then true
        else if l1 = player ∧ l2 = player ∧ l3 = kEmpty then true
        else if l1 = player ∧ l2 = player ∧ l3 = opponent ∧ (l4 = kInvalid ∨ l4 = kEmpty) then true
        else if l1 = player ∧ l2 = player ∧ l3 = opponent ∧ l4 = opponent ∧
            (l5 = kInvalid ∨ l5 = kEmpty) then true
        else false

/-- The `while` loop of `Move::_ApplySingleMove`, by structural recursion on a
    fuel bound.  The second component is a ghost record of how the loop
    stopped: `some x` when the loop ended with carried value `x` unwritten
    (out-of-grid position, `kInvalid` cell, or fuel exhaustion), `none` when it
    ended by writing the carried value into a `kEmpty` cell.  With `(dr, dc)` a
    direction offset the loop leaves the grid after at most 9 steps, so fuel
    100 is never exhausted at the call site below. -/
def applySingleLoop (dr dc : ℤ) : Board → ℤ → ℤ → CellState → ℕ → Board × Option CellState
  | b, _, _, carry, 0 => (b, some carry)
  | b, r, c, carry, Nat.succ n =>
    if r < 0 ∨ 9 ≤ r ∨ c < 0 ∨ 9 ≤ c then (b, some carry)
    else
      let currentId := BoardAt b r c
      if currentId = kInvalid then (b, some carry)
      else
        let b2 := SetBoard b r c carry
        if currentId = kEmpty then (b2, none)
        else applySingleLoop dr dc b2 (r + dr) (c + dc) currentId n

/-- Model of `Move::_ApplySingleMove` (abalone.cc): walk from `m_start` along
    `(_dr, _dc)` carrying the displaced content (initially `kEmpty`). -/
def Move._ApplySingleMove (m : Move) (b : Board) (dr dc : ℤ) : Board :=
  (applySingleLoop dr dc b m.m_start.m_row m.m_start.m_column kEmpty 100).1

/-- The loop of `Move::_ApplyParallelMove`: `for (i = 0; i <= size; i++)` with
    early breaks, so `size + 1` iterations of fuel at the call site. -/
def applyParallelLoop (player : CellState) (slideR slideC dr dc : ℤ) :
    Board → ℤ → ℤ → ℕ → Board
  | b, _, _, 0 => b
  | b, r, c, Nat.succ n =>
    if r < 0 ∨ 9 ≤ r ∨ c < 0 ∨ 9 ≤ c then b
    else if BoardAt b r c ≠ player then b
    else
      let dst_r := r + dr
      let dst_c := c + dc
      if dst_r < 0 ∨ 9 ≤ dst_r ∨ dst_c < 0 ∨ 9 ≤ dst_c then b
      else if BoardAt b dst_r dst_c ≠ kEmpty then b
      else
        applyParallelLoop player slideR slideC dr dc
          (SetBoard (SetBoard b dst_r dst_c player) r c kEmpty)
          (r + slideR) (c + slideC) n

/-- Model of `Move::_ApplyParallelMove` (abalone.cc).  The unguarded C++ read
    `BoardAt(m_start)` before the loop is modelled by the total `BoardAt`;
    when `m_start` is out of the grid the loop breaks at its first bound check
    without ever using the value. -/
def Move._ApplyParallelMove (m : Move) (b : Board) (dr dc : ℤ) : Board :=
  let slide_row := max (min (m.m_end.m_row - m.m_start.m_row) 1) (-1)
  let slide_column := max (min (m.m_end.m_column - m.m_start.m_column) 1) (-1)
  let rSize := (m.m_end.m_row - m.m_start.m_row).natAbs
  let cSize := (m.m_end.m_column - m.m_start.m_column).natAbs
  let size := max rSize cSize
  let player := BoardAt b m.m_start.m_row m.m_start.m_column
  applyParallelLoop player slide_row slide_column dr dc b
    m.m_start.m_row m.m_start.m_column (size + 1)

/-- Model of `Move::Apply` (abalone.cc): dispatch between the parallel (slide) and
    single (in-line) executors by comparing `m_end - m_start` with the
    direction offset. -/
def Move.Apply (m : Move) (b : Board) : Board :=
  let offset := Offsets m.m_direction
  let vr := m.m_end.m_row - m.m_start.m_row
  let vc := m.m_end.m_column - m.m_start.m_column
  if offset.m_row ≠ vr ∨ offset.m_column ≠ vc then
    m._ApplyParallelMove b offset.m_row offset.m_column
  else
    m._ApplySingleMove b offset.m_row offset.m_column

/-- Game state: `board_`, `current_player_`, `outcome_` (`kInvalidPlayer`
    modelled as `none`), `num_moves_` from class `AbaloneState`. -/
structure GameState : Type where
  board_ : Board
  current_player_ : Fin 2
  outcome_ : Option (Fin 2)
  num_moves_ : ℕ

/-- Model of `AbaloneState::Returns` as a function of the outcome field and the board.
    `kMarblesToWin = 6`, so the loss threshold is `14 - 6 = 8`; the shaping
    reward `marble_reward = 0.1f` is modelled as `1/10 : ℚ` (see the header
    comment for why this is observationally faithful). -/
def ReturnsOf (outcome : Option (Fin 2)) (b : Board) : ℚ × ℚ :=
  match outcome with
  | some p => if p = 0 then (1, -1) else (-1, 1)
  | none =>
    let ballCount0 := countCell b kPlayer1
    let ballCount1 := countCell b kPlayer2
    if ballCount0 ≤ 8 then (-1, 1)
    else if ballCount1 ≤ 8 then (1, -1)
    else
      let marble_balance : ℤ := (14 - (ballCount1 : ℤ)) - (14 - (ballCount0 : ℤ))
      ((marble_balance : ℚ) * (1 / 10), -(marble_balance : ℚ) * (1 / 10))

/-- Model of `AbaloneState::Returns()`. -/
def GameState.Returns (s : GameState) : ℚ × ℚ :=
  ReturnsOf s.outcome_ s.board_

/-- Model of `AbaloneState::IsTerminal()`: outcome set, or `num_moves_ >= kHistoryMax`
    with `kHistoryMax = 200`. -/
def GameState.IsTerminal (s : GameState) : Bool :=
  s.outcome_.isSome || decide (200 ≤ s.num_moves_)

/-- Model of `AbaloneState::DoApplyAction` (abalone.cc).  On an invalid move the
    function sets `outcome_ = 1 - current_player_` and returns immediately;
    otherwise it applies the move, sets `outcome_` to the mover when the
    mover's return equals 1.0, then toggles the player and increments the move
    counter. -/
def GameState.DoApplyAction (s : GameState) (action : ℕ) : GameState :=
  let move := ActionToMove action
  if move.IsValid s.board_ s.current_player_ then
    let board2 := move.Apply s.board_
    let returns := ReturnsOf s.outcome_ board2
    let myReturn := if s.current_player_ = 0 then returns.1 else returns.2
    let outcome2 := if myReturn = 1 then some s.current_player_ else s.outcome_
    { board_ := board2
      current_player_ := 1 - s.current_player_
      outcome_ := outcome2
      num_moves_ := s.num_moves_ + 1 }
  else
    { s with outcome_ := some (1 - s.current_player_) }

/-- Row r of `ABALONE_INIT_CLASSIC` (abalone.h), rows listed from i (index 0)
    down to a (index 8). -/
def classicRows : List (List CellState) :=
  [ [kInvalid, kInvalid, kInvalid, kInvalid, kPlayer2, kPlayer2, kPlayer2, kPlayer2, kPlayer2],
    [kInvalid, kInvalid, kInvalid, kPlayer2, kPlayer2, kPlayer2, kPlayer2, kPlayer2, kPlayer2],
    [kInvalid, kInvalid, kEmpty, kEmpty, kPlayer2, kPlayer2, kPlayer2, kEmpty, kEmpty],
    [kInvalid, kEmpty, kEmpty, kEmpty, kEmpty, kEmpty, kEmpty, kEmpty, kEmpty],
    [kEmpty, kEmpty, kEmpty, kEmpty, kEmpty, kEmpty, kEmpty, kEmpty, kEmpty],
    [kEmpty, kEmpty, kEmpty, kEmpty, kEmpty, kEmpty, kEmpty, kEmpty, kInvalid],
    [kEmpty, kEmpty, kPlayer1, kPlayer1, kPlayer1, kEmpty, kEmpty, kInvalid, kInvalid],
    [kPlayer1, kPlayer1, kPlayer1, kPlayer1, kPlayer1, kPlayer1, kInvalid, kInvalid, kInvalid],
    [kPlayer1, kPlayer1, kPlayer1, kPlayer1, kPlayer1, kInvalid, kInvalid, kInvalid, kInvalid] ]

/-- Model of `ABALONE_INIT_CLASSIC` as a `Board`. -/
def ABALONE_INIT_CLASSIC : Board := fun r c =>
  (classicRows.getD r.val []).getD c.val kInvalid

/-- The initial state built by `AbaloneState::AbaloneState`: classic layout,
    player 0 to move, no outcome, zero moves. -/
def NewInitialState : GameState :=
  ⟨ABALONE_INIT_CLASSIC, 0, none, 0⟩

/-- Row list of `VALID_BOARD` (abalone.h): the all-empty layout marking which
    grid cells belong to the hex board. -/
def validRows : List (List CellState) :=
  [ [kInvalid, kInvalid, kInvalid, kInvalid, kEmpty, kEmpty, kEmpty, kEmpty, kEmpty],
    [kInvalid, kInvalid, kInvalid, kEmpty, kEmpty, kEmpty, kEmpty, kEmpty, kEmpty],
    [kInvalid, kInvalid, kEmpty, kEmpty, kEmpty, kEmpty, kEmpty, kEmpty, kEmpty],
    [kInvalid, kEmpty, kEmpty, kEmpty, kEmpty, kEmpty, kEmpty, kEmpty, kEmpty],
    [kEmpty, kEmpty, kEmpty, kEmpty, kEmpty, kEmpty, kEmpty, kEmpty, kEmpty],
    [kEmpty, kEmpty, kEmpty, kEmpty, kEmpty, kEmpty, kEmpty, kEmpty, kInvalid],
    [kEmpty, kEmpty, kEmpty, kEmpty, kEmpty, kEmpty, kEmpty, kInvalid, kInvalid],
    [kEmpty, kEmpty, kEmpty, kEmpty, kEmpty, kEmpty, kInvalid, kInvalid, kInvalid],
    [kEmpty, kEmpty, kEmpty, kEmpty, kEmpty, kInvalid, kInvalid, kInvalid, kInvalid] ]

/-- Model of `VALID_BOARD` (abalone.h) as a `Board`. -/
def VALID_BOARD : Board := fun r c =>
  (validRows.getD r.val []).getD c.val kInvalid

/-- Test board exhibiting the flat-array aliasing of the slide walk: the
    empty hex mask with the mover's marbles at (5, 7), (4, 8) and (4, 0).
    For the slide-classified move {LEFT, (5, 7) -> (3, 8)} the walk visits
    (5, 7), (4, 8) and (3, 9); position (3, 9) is outside the grid, but its
    flat index 3 * 9 + 9 = 36 reads cell (4, 0), an own marble, so the
    program accepts the slide. -/
def slideWrapBoard : Board :=
  SetBoard (SetBoard (SetBoard VALID_BOARD 5 7 kPlayer1) 4 8 kPlayer1) 4 0 kPlayer1

/-- The spec's six legal in-line content patterns (spec 4.3: (a) position 1
    Empty; (b) 1 own, 2 Empty; (c) 1 own, 2 opponent, 3 Invalid-or-Empty;
    (d) 1,2 own, 3 Empty; (e) 1,2 own, 3 opponent, 4 Invalid-or-Empty;
    (f) 1,2 own, 3,4 opponent, 5 Invalid-or-Empty), stated over the 6-cell
    line content read from the move's start (position 0 is the start itself);
    written from the spec's words, to be compared with `Move::IsValid`. -/
def specInlinePatterns (b : Board) (m : Move) (p : Fin 2) : Prop :=
  lineContent b m 1 = kEmpty ∨
  (lineContent b m 1 = PlayerToState p ∧ lineContent b m 2 = kEmpty) ∨
  (lineContent b m 1 = PlayerToState p ∧ lineContent b m 2 = PlayerToState (1 - p) ∧
    (lineContent b m 3 = kInvalid ∨ lineContent b m 3 = kEmpty)) ∨
  (lineContent b m 1 = PlayerToState p ∧ lineContent b m 2 = PlayerToState p ∧
    lineContent b m 3 = kEmpty) ∨
  (lineContent b m 1 = PlayerToState p ∧ lineContent b m 2 = PlayerToState p ∧
    lineContent b m 3 = PlayerToState (1 - p) ∧
    (lineContent b m 4 = kInvalid ∨ lineContent b m 4 = kEmpty)) ∨
  (lineContent b m 1 = PlayerToState p ∧ lineContent b m 2 = PlayerToState p ∧
    lineContent b m 3 = PlayerToState (1 - p) ∧
    lineContent b m 4 = PlayerToState (1 - p) ∧
    (lineContent b m 5 = kInvalid ∨ lineContent b m 5 = kEmpty))

instance (b : Board) (m : Move) (p : Fin 2) : Decidable (specInlinePatterns b m p) := by
  unfold specInlinePatterns
  infer_instance

/-- The spec's characterization of a legal slide (spec 4.3, "Not equal"
    branch): both spans at most 3 cells, normalized step vector one of the 6
    direction offsets, and every cell visited walking from start by that step
    vector for max(spanRow, spanCol) steps holds the mover's marble while its
    translation by the move-direction offset is in-grid and Empty; written
    from the spec's words, to be compared with `Move::_IsValidSlide`. -/
def specSlideLegal (b : Board) (m : Move) (p : Fin 2) : Prop :=
  (m.m_end.m_row - m.m_start.m_row).natAbs + 1 ≤ 3 ∧
  (m.m_end.m_column - m.m_start.m_column).natAbs + 1 ≤ 3 ∧
  (∃ d : Direction,
    (Offsets d).m_row = max (min (m.m_end.m_row - m.m_start.m_row) 1) (-1) ∧
    (Offsets d).m_column = max (min (m.m_end.m_column - m.m_start.m_column) 1) (-1)) ∧
  (∀ i : ℕ,
    i < max ((m.m_end.m_column - m.m_start.m_column).natAbs + 1)
      ((m.m_end.m_row - m.m_start.m_row).natAbs + 1) →
    (BoardAt b
       (m.m_start.m_row + i * max (min (m.m_end.m_row - m.m_start.m_row) 1) (-1))
       (m.m_start.m_column + i * max (min (m.m_end.m_column - m.m_start.m_column) 1) (-1))
       = PlayerToState p ∧
     0 ≤ m.m_start.m_row + i * max (min (m.m_end.m_row - m.m_start.m_row) 1) (-1)
       + (Offsets m.m_direction).m_row ∧
     m.m_start.m_row + i * max (min (m.m_end.m_row - m.m_start.m_row) 1) (-1)
       + (Offsets m.m_direction).m_row < 9 ∧
     0 ≤ m.m_start.m_column + i * max (min (m.m_end.m_column - m.m_start.m_column) 1) (-1)
       + (Offsets m.m_direction).m_column ∧
     m.m_start.m_column + i * max (min (m.m_end.m_column - m.m_start.m_column) 1) (-1)
       + (Offsets m.m_direction).m_column < 9 ∧
     BoardAt b
       (m.m_start.m_row + i * max (min (m.m_end.m_row - m.m_start.m_row) 1) (-1)
         + (Offsets m.m_direction).m_row)
       (m.m_start.m_column + i * max (min (m.m_end.m_column - m.m_start.m_column) 1) (-1)
         + (Offsets m.m_direction).m_column)
       = kEmpty))

instance (b : Board) (m : Move) (p : Fin 2) : Decidable (specSlideLegal b m p) := by
  unfold specSlideLegal
  infer_instance

/-- The slide-legality characterization with the program's actual visited-cell
    reads: identical to `specSlideLegal` except that the walk's cell reads go
    through the flat array (`BoardAtFlat`), reproducing the unguarded C++ read
    at abalone.cc:123 whose out-of-range column wraps into the adjacent
    row. -/
def flatSlideLegal (b : Board) (m : Move) (p : Fin 2) : Prop :=
  (m.m_end.m_row - m.m_start.m_row).natAbs + 1 ≤ 3 ∧
  (m.m_end.m_column - m.m_start.m_column).natAbs + 1 ≤ 3 ∧
  (∃ d : Direction,
    (Offsets d).m_row = max (min (m.m_end.m_row - m.m_start.m_row) 1) (-1) ∧
    (Offsets d).m_column = max (min (m.m_end.m_column - m.m_start.m_column) 1) (-1)) ∧
  (∀ i : ℕ,
    i < max ((m.m_end.m_column - m.m_start.m_column).natAbs + 1)
      ((m.m_end.m_row - m.m_start.m_row).natAbs + 1) →
    (BoardAtFlat b
       (m.m_start.m_row + i * max (min (m.m_end.m_row - m.m_start.m_row) 1) (-1))
       (m.m_start.m_column + i * max (min (m.m_end.m_column - m.m_start.m_column) 1) (-1))
       = PlayerToState p ∧
     0 ≤ m.m_start.m_row + i * max (min (m.m_end.m_row - m.m_start.m_row) 1) (-1)
       + (Offsets m.m_direction).m_row ∧
     m.m_start.m_row + i * max (min (m.m_end.m_row - m.m_start.m_row) 1) (-1)
       + (Offsets m.m_direction).m_row < 9 ∧
     0 ≤ m.m_start.m_column + i * max (min (m.m_end.m_column - m.m_start.m_column) 1) (-1)
       + (Offsets m.m_direction).m_column ∧
     m.m_start.m_column + i * max (min (m.m_end.m_column - m.m_start.m_column) 1) (-1)
       + (Offsets m.m_direction).m_column < 9 ∧
     BoardAt b
       (m.m_start.m_row + i * max (min (m.m_end.m_row - m.m_start.m_row) 1) (-1)
         + (Offsets m.m_direction).m_row)
       (m.m_start.m_column + i * max (min (m.m_end.m_column - m.m_start.m_column) 1) (-1)
         + (Offsets m.m_direction).m_column)
       = kEmpty))

instance (b : Board) (m : Move) (p : Fin 2) : Decidable (flatSlideLegal b m p) := by
  unfold flatSlideLegal
  infer_instance

/-- Whether a legal in-line push sends a marble beyond the board: scanning the
    line content from position 1 on, the first position that is not a marble
    reads `kInvalid` (off-board: a position with no hex cell or outside the
    9x9 grid) rather than `kEmpty`.  Under `Move::IsValid` the scan always
    settles within positions 1..5. -/
def pushedOffBoard (b : Board) (m : Move) : Bool :=
  if lineContent b m 1 = kEmpty then false
  else if lineContent b m 1 = kInvalid then true
  else if lineContent b m 2 = kEmpty then false
  else if lineContent b m 2 = kInvalid then true
  else if lineContent b m 3 = kEmpty then false
  else if lineContent b m 3 = kInvalid then true
  else if lineContent b m 4 = kEmpty then false
  else if lineContent b m 4 = kInvalid then true
  else if lineContent b m 5 = kEmpty then false
  else if lineContent b m 5 = kInvalid then true
  else false

/-- Total number of marbles (of either player) on the board. -/
def totalMarbles (b : Board) : ℕ :=
  countCell b kPlayer1 + countCell b kPlayer2

/-! ### Basic board lemmas -/

/-- Cells outside the grid are unaffected by `SetBoard`. -/
lemma SetBoard_oob {r c : ℤ} (b : Board) (v : CellState)
    (h : ¬ (0 ≤ r ∧ r < 9 ∧ 0 ≤ c ∧ c < 9)) : SetBoard b r c v = b := by
  simp [SetBoard, h]

/-- Reading the cell just written. -/
lemma BoardAt_SetBoard_same {r c : ℤ} (b : Board) (v : CellState)
    (h : 0 ≤ r ∧ r < 9 ∧ 0 ≤ c ∧ c < 9) : BoardAt (SetBoard b r c v) r c = v := by
  simp only [BoardAt, SetBoard, dif_pos h, Function.update_apply, Fin.mk.injEq]
  simp

/-- Reading any other cell after a write. -/
lemma BoardAt_SetBoard_ne {r c r' c' : ℤ} (b : Board) (v : CellState)
    (hne : r' ≠ r ∨ c' ≠ c) :
    BoardAt (SetBoard b r c v) r' c' = BoardAt b r' c' := by
  by_cases h : 0 ≤ r ∧ r < 9 ∧ 0 ≤ c ∧ c < 9
  · by_cases h' : 0 ≤ r' ∧ r' < 9 ∧ 0 ≤ c' ∧ c' < 9
    · simp only [BoardAt, SetBoard, dif_pos h, dif_pos h', Function.update_apply,
        Fin.mk.injEq]
      rcases hne with hner | hnec
      · rw [if_neg (by omega)]
      · by_cases hr : r'.toNat = r.toNat
        · rw [if_pos hr, Function.update_apply,
            if_neg (show ¬((⟨c'.toNat, by omega⟩ : Fin 9) = ⟨c.toNat, by omega⟩) by
              simp only [Fin.mk.injEq]; omega)]
          congr 1
          exact Fin.ext hr.symm
        · rw [if_neg hr]
    · simp only [BoardAt, SetBoard, dif_pos h, dif_neg h']
  · rw [SetBoard_oob b v h]

/-- Single-cell update bookkeeping for `countCell`. -/
lemma countCell_SetBoard {r c : ℤ} (b : Board) (v t : CellState)
    (h : 0 ≤ r ∧ r < 9 ∧ 0 ≤ c ∧ c < 9) :
    countCell (SetBoard b r c v) t + (if BoardAt b r c = t then 1 else 0) =
      countCell b t + (if v = t then 1 else 0) := by
  have hb : BoardAt b r c = b ⟨r.toNat, by omega⟩ ⟨c.toNat, by omega⟩ := dif_pos h
  have key : ∀ (g : Fin 9 → ℕ) (x0 : Fin 9),
      ∑ x : Fin 9, g x = g x0 + ∑ x ∈ Finset.univ.erase x0, g x := by
    intro g x0
    exact (Finset.add_sum_erase _ g (Finset.mem_univ x0)).symm
  set X : Fin 9 := ⟨r.toNat, by omega⟩ with hX
  set Y : Fin 9 := ⟨c.toNat, by omega⟩ with hY
  simp only [countCell, SetBoard, dif_pos h, hb]
  rw [key (fun x => ∑ y : Fin 9,
    if Function.update b X (Function.update (b X) Y v) x y = t then 1 else 0) X]
  rw [key (fun x => ∑ y : Fin 9, if b x y = t then 1 else 0) X]
  have hrest : (∑ x ∈ Finset.univ.erase X, ∑ y : Fin 9,
      if Function.update b X (Function.update (b X) Y v) x y = t then 1 else 0) =
      ∑ x ∈ Finset.univ.erase X, ∑ y : Fin 9, if b x y = t then 1 else 0 := by
    refine Finset.sum_congr rfl ?_
    intro x hx
    rw [Function.update_noteq (Finset.ne_of_mem_erase hx)]
  rw [hrest]
  simp only [Function.update_same]
  rw [key (fun y => if Function.update (b X) Y v y = t then 1 else 0) Y]
  rw [key (fun y => if b X y = t then 1 else 0) Y]
  have hrest2 : (∑ y ∈ Finset.univ.erase Y,
      if Function.update (b X) Y v y = t then 1 else 0) =
      ∑ y ∈ Finset.univ.erase Y, if b X y = t then 1 else 0 := by
    refine Finset.sum_congr rfl ?_
    intro y hy
    rw [Function.update_noteq (Finset.ne_of_mem_erase hy)]
  rw [hrest2]
  simp only [Function.update_same]
  omega

/-! ### Loop invariants of the executors -/

/-- Conservation invariant of the in-line executor loop: for any marble colour
    `t`, the count of `t` on the final board plus the stopped carry (when it is
    `t`) equals the count on the initial board plus the initial carry. -/
lemma applySingleLoop_count (dr dc : ℤ) (t : CellState) (ht : t ≠ kEmpty) :
    ∀ (fuel : ℕ) (b : Board) (r c : ℤ) (x : CellState),
    countCell (applySingleLoop dr dc b r c x fuel).1 t
        + (if (applySingleLoop dr dc b r c x fuel).2 = some t then 1 else 0)
      = countCell b t + (if x = t then 1 else 0) := by
  intro fuel
  induction fuel with
  | zero =>
    intro b r c x
    simp [applySingleLoop]
  | succ n ih =>
    intro b r c x
    rw [applySingleLoop]
    by_cases hb : r < 0 ∨ 9 ≤ r ∨ c < 0 ∨ 9 ≤ c
    · simp [hb]
    · simp only [if_neg hb]
      by_cases hinv : BoardAt b r c = kInvalid
      · simp [hinv]
      · simp only [if_neg hinv]
        by_cases hemp : BoardAt b r c = kEmpty
        · simp only [if_pos hemp]
          have hcount := @countCell_SetBoard r c b x t (by omega)
          rw [hemp] at hcount
          have hze : (if kEmpty = t then 1 else 0) = 0 :=
            if_neg fun hh => ht hh.symm
          rw [hze] at hcount
          simpa using hcount
        · simp only [if_neg hemp]
          rw [ih]
          exact @countCell_SetBoard r c b x t (by omega)
/-- The in-line executor loop never changes a cell that held `kInvalid`. -/
lemma applySingleLoop_invalid_pres (dr dc : ℤ) (r0 c0 : ℤ) :
    ∀ (fuel : ℕ) (b : Board) (r c : ℤ) (x : CellState),
    BoardAt b r0 c0 = kInvalid →
    BoardAt (applySingleLoop dr dc b r c x fuel).1 r0 c0 = kInvalid := by
  intro fuel
  induction fuel with
  | zero =>
    intro b r c x h0
    simpa [applySingleLoop] using h0
  | succ n ih =>
    intro b r c x h0
    rw [applySingleLoop]
    by_cases hb : r < 0 ∨ 9 ≤ r ∨ c < 0 ∨ 9 ≤ c
    · simpa [hb] using h0
    · simp only [if_neg hb]
      by_cases hinv : BoardAt b r c = kInvalid
      · simpa [hinv] using h0
      · simp only [if_neg hinv]
        have hne : r0 ≠ r ∨ c0 ≠ c := by
          by_contra hcon
          push_neg at hcon
          rw [hcon.1, hcon.2] at h0
          exact hinv h0
        have h0' : BoardAt (SetBoard b r c x) r0 c0 = kInvalid := by
          rw [BoardAt_SetBoard_ne b x hne]
          exact h0
        by_cases hemp : BoardAt b r c = kEmpty
        · simpa [hemp] using h0'
        · simp only [if_neg hemp]
          exact ih (SetBoard b r c x) (r + dr) (c + dc) (BoardAt b r c) h0'

/-- The slide executor loop preserves the count of every cell value: each
    iteration writes `player` onto a cell that held `kEmpty` and `kEmpty` onto
    a cell that held `player`. -/
lemma applyParallelLoop_count (player : CellState) (slideR slideC dr dc : ℤ)
    (hd : ¬ (dr = 0 ∧ dc = 0)) (t : CellState) :
    ∀ (fuel : ℕ) (b : Board) (r c : ℤ),
    countCell (applyParallelLoop player slideR slideC dr dc b r c fuel) t
      = countCell b t := by
  intro fuel
  induction fuel with
  | zero =>
    intro b r c
    simp [applyParallelLoop]
  | succ n ih =>
    intro b r c
    rw [applyParallelLoop]
    by_cases hb : r < 0 ∨ 9 ≤ r ∨ c < 0 ∨ 9 ≤ c
    · simp [hb]
    · simp only [if_neg hb]
      by_cases hp : BoardAt b r c ≠ player
      · simp [hp]
      · simp only [if_neg hp]
        push_neg at hp
        by_cases hdb : r + dr < 0 ∨ 9 ≤ r + dr ∨ c + dc < 0 ∨ 9 ≤ c + dc
        · simp [hdb]
        · simp only [if_neg hdb]
          by_cases hde : BoardAt b (r + dr) (c + dc) ≠ kEmpty
          · simp [hde]
          · simp only [if_neg hde]
            push_neg at hde
            rw [ih]
            have h1 := @countCell_SetBoard (r + dr) (c + dc) b player t (by omega)
            rw [hde] at h1
            have hsrc : BoardAt (SetBoard b (r + dr) (c + dc) player) r c = BoardAt b r c := by
              apply BoardAt_SetBoard_ne
              by_contra hcon
              push_neg at hcon
              apply hd
              omega
            have h2 := @countCell_SetBoard r c (SetBoard b (r + dr) (c + dc) player) kEmpty t
              (by omega)
            rw [hsrc, hp] at h2
            omega

/-- The slide executor loop never changes a cell that held `kInvalid`,
    provided the carried `player` value is itself not `kInvalid`. -/
lemma applyParallelLoop_invalid_pres (player : CellState) (slideR slideC dr dc : ℤ)
    (hplayer : player ≠ kInvalid) (r0 c0 : ℤ) :
    ∀ (fuel : ℕ) (b : Board) (r c : ℤ),
    BoardAt b r0 c0 = kInvalid →
    BoardAt (applyParallelLoop player slideR slideC dr dc b r c fuel) r0 c0 = kInvalid := by
  intro fuel
  induction fuel with
  | zero =>
    intro b r c h0
    simpa [applyParallelLoop] using h0
  | succ n ih =>
    intro b r c h0
    rw [applyParallelLoop]
    by_cases hb : r < 0 ∨ 9 ≤ r ∨ c < 0 ∨ 9 ≤ c
    · simpa [hb] using h0
    · simp only [if_neg hb]
      by_cases hp : BoardAt b r c ≠ player
      · simpa [hp] using h0
      · simp only [if_neg hp]
        push_neg at hp
        by_cases hdb : r + dr < 0 ∨ 9 ≤ r + dr ∨ c + dc < 0 ∨ 9 ≤ c + dc
        · simpa [hdb] using h0
        · simp only [if_neg hdb]
          by_cases hde : BoardAt b (r + dr) (c + dc) ≠ kEmpty
          · simpa [hde] using h0
          · simp only [if_neg hde]
            push_neg at hde
            apply ih
            have hne1 : r0 ≠ r + dr ∨ c0 ≠ c + dc := by
              by_contra hcon
              push_neg at hcon
              rw [hcon.1, hcon.2] at h0
              rw [h0] at hde
              exact absurd hde (by intro hh; cases hh)
            have hne2 : r0 ≠ r ∨ c0 ≠ c := by
              by_contra hcon
              push_neg at hcon
              rw [hcon.1, hcon.2] at h0
              rw [h0] at hp
              exact hplayer hp.symm
            rw [BoardAt_SetBoard_ne _ kEmpty hne2, BoardAt_SetBoard_ne _ player hne1]
            exact h0

/-! ### Characterization of the slide-validation walk -/

/-- One unfolding of `slideWalk` as a conjunction. -/
lemma slideWalk_succ_iff (b : Board) (player : CellState) (dirR dirC slideR slideC r c : ℤ)
    (n : ℕ) :
    slideWalk b player dirR dirC slideR slideC r c (n + 1) = true ↔
      (BoardAtFlat b r c = player ∧
        0 ≤ r + dirR ∧ r + dirR < 9 ∧ 0 ≤ c + dirC ∧ c + dirC < 9 ∧
        BoardAt b (r + dirR) (c + dirC) = kEmpty ∧
        slideWalk b player dirR dirC slideR slideC (r + slideR) (c + slideC) n = true) := by
  rw [slideWalk]
  by_cases h1 : BoardAtFlat b r c ≠ player
  · simp [h1]
  · push_neg at h1
    simp only [h1, if_neg (show ¬ (player ≠ player) by simp)]
    by_cases h2 : r + dirR < 0 ∨ 9 ≤ r + dirR
    · simp only [if_pos h2]
      constructor
      · intro hh
        cases hh
      · rintro ⟨-, hb1, hb2, -⟩
        omega
    · simp only [if_neg h2]
      by_cases h3 : c + dirC < 0 ∨ 9 ≤ c + dirC
      · simp only [if_pos h3]
        constructor
        · intro hh
          cases hh
        · rintro ⟨-, -, -, hb1, hb2, -⟩
          omega
      · simp only [if_neg h3]
        by_cases h4 : BoardAt b (r + dirR) (c + dirC) ≠ kEmpty
        · simp only [if_pos h4]
          constructor
          · intro hh
            cases hh
          · rintro ⟨-, -, -, -, -, he, -⟩
            exact absurd he h4
        · push_neg at h4
          simp only [h4, if_neg (show ¬ (kEmpty ≠ kEmpty) by simp)]
          constructor
          · intro hw
            exact ⟨trivial, by omega, by omega, by omega, by omega, trivial, hw⟩
          · rintro ⟨-, -, -, -, -, -, hw⟩
            exact hw

/-- The walk of `_IsValidSlide` succeeds iff every one of the `n` visited
    cells holds `player` and its translation by the move-direction offset is
    inside the grid and empty. -/
lemma slideWalk_iff (b : Board) (player : CellState) (dirR dirC slideR slideC : ℤ) :
    ∀ (n : ℕ) (r c : ℤ),
    slideWalk b player dirR dirC slideR slideC r c n = true ↔
      ∀ i : ℕ, i < n →
        (BoardAtFlat b (r + i * slideR) (c + i * slideC) = player ∧
          0 ≤ r + i * slideR + dirR ∧ r + i * slideR + dirR < 9 ∧
          0 ≤ c + i * slideC + dirC ∧ c + i * slideC + dirC < 9 ∧
          BoardAt b (r + i * slideR + dirR) (c + i * slideC + dirC) = kEmpty) := by
  intro n
  induction n with
  | zero =>
    intro r c
    simp [slideWalk]
  | succ n ih =>
    intro r c
    rw [slideWalk_succ_iff, ih (r + slideR) (c + slideC)]
    constructor
    · rintro ⟨hp, h1, h2, h3, h4, he, hrec⟩ i hi
      cases i with
      | zero => simpa using ⟨hp, h1, h2, h3, h4, he⟩
      | succ j =>
        have harr : r + slideR + (j : ℤ) * slideR = r + ((j + 1 : ℕ) : ℤ) * slideR := by
          push_cast
          ring
        have harc : c + slideC + (j : ℤ) * slideC = c + ((j + 1 : ℕ) : ℤ) * slideC := by
          push_cast
          ring
        have := hrec j (by omega)
        rw [harr, harc] at this
        exact this
    · intro h
      have h0 := h 0 (by omega)
      simp only [Nat.cast_zero, zero_mul, add_zero] at h0
      refine ⟨h0.1, h0.2.1, h0.2.2.1, h0.2.2.2.1, h0.2.2.2.2.1, h0.2.2.2.2.2, ?_⟩
      intro j hj
      have harr : r + slideR + (j : ℤ) * slideR = r + ((j + 1 : ℕ) : ℤ) * slideR := by
        push_cast
        ring
      have harc : c + slideC + (j : ℤ) * slideC = c + ((j + 1 : ℕ) : ℤ) * slideC := by
        push_cast
        ring
      rw [harr, harc]
      exact h (j + 1) (by omega)

/-! ### Characterization of the validator -/

lemma PlayerToState_ne_empty (p : Fin 2) : PlayerToState p ≠ kEmpty := by
  fin_cases p <;> decide

lemma PlayerToState_ne_invalid (p : Fin 2) : PlayerToState p ≠ kInvalid := by
  fin_cases p <;> decide

lemma PlayerToState_ne_opp (p : Fin 2) : PlayerToState p ≠ PlayerToState (1 - p) := by
  fin_cases p <;> decide

/-- The opponent expression of `Move::IsValid` computed on the mover's state is
    the other player's state. -/
lemma opponent_eq (p : Fin 2) :
    (if PlayerToState p = kPlayer1 then kPlayer2 else kPlayer1) = PlayerToState (1 - p) := by
  fin_cases p <;> decide

/-- A valid move has both endpoints inside the grid and its start cell held by
    the acting player (the four bound checks and the player check of
    `Move::IsValid`). -/
lemma IsValid_elim {m : Move} {b : Board} {p : Fin 2} (h : m.IsValid b p = true) :
    0 ≤ m.m_start.m_row ∧ m.m_start.m_row < 9 ∧
    0 ≤ m.m_start.m_column ∧ m.m_start.m_column < 9 ∧
    0 ≤ m.m_end.m_row ∧ m.m_end.m_row < 9 ∧
    0 ≤ m.m_end.m_column ∧ m.m_end.m_column < 9 ∧
    BoardAt b m.m_start.m_row m.m_start.m_column = PlayerToState p := by
  rw [Move.IsValid] at h
  by_cases h1 : m.m_start.m_row < 0 ∨ 9 ≤ m.m_start.m_row
  · rw [if_pos h1] at h
    cases h
  rw [if_neg h1] at h
  by_cases h2 : m.m_start.m_column < 0 ∨ 9 ≤ m.m_start.m_column
  · rw [if_pos h2] at h
    cases h
  rw [if_neg h2] at h
  by_cases h3 : m.m_end.m_row < 0 ∨ 9 ≤ m.m_end.m_row
  · rw [if_pos h3] at h
    cases h
  rw [if_neg h3] at h
  by_cases h4 : m.m_end.m_column < 0 ∨ 9 ≤ m.m_end.m_column
  · rw [if_pos h4] at h
    cases h
  rw [if_neg h4] at h
  by_cases h5 : BoardAt b m.m_start.m_row m.m_start.m_column ≠ PlayerToState p
  · rw [if_pos h5] at h
    cases h
  push_neg at h5
  exact ⟨by omega, by omega, by omega, by omega, by omega, by omega, by omega, by omega, h5⟩

/-- On an in-line candidate (endpoints in the grid, start held by the acting
    player, `m_end - m_start` equal to the direction offset), `Move::IsValid`
    holds exactly when the 6-cell line content matches one of the six sumito
    patterns. -/
lemma IsValid_inline_iff (m : Move) (b : Board) (p : Fin 2)
    (hb : 0 ≤ m.m_start.m_row ∧ m.m_start.m_row < 9 ∧
      0 ≤ m.m_start.m_column ∧ m.m_start.m_column < 9 ∧
      0 ≤ m.m_end.m_row ∧ m.m_end.m_row < 9 ∧
      0 ≤ m.m_end.m_column ∧ m.m_end.m_column < 9)
    (hstart : BoardAt b m.m_start.m_row m.m_start.m_column = PlayerToState p)
    (hinr : m.m_end.m_row - m.m_start.m_row = (Offsets m.m_direction).m_row)
    (hinc : m.m_end.m_column - m.m_start.m_column = (Offsets m.m_direction).m_column) :
    m.IsValid b p = true ↔
      (lineContent b m 1 = kEmpty ∨
       (lineContent b m 1 = PlayerToState p ∧ lineContent b m 2 = kEmpty) ∨
       (lineContent b m 1 = PlayerToState p ∧ lineContent b m 2 = PlayerToState (1 - p) ∧
         (lineContent b m 3 = kInvalid ∨ lineContent b m 3 = kEmpty)) ∨
       (lineContent b m 1 = PlayerToState p ∧ lineContent b m 2 = PlayerToState p ∧
         lineContent b m 3 = kEmpty) ∨
       (lineContent b m 1 = PlayerToState p ∧ lineContent b m 2 = PlayerToState p ∧
         lineContent b m 3 = PlayerToState (1 - p) ∧
         (lineContent b m 4 = kInvalid ∨ lineContent b m 4 = kEmpty)) ∨
       (lineContent b m 1 = PlayerToState p ∧ lineContent b m 2 = PlayerToState p ∧
         lineContent b m 3 = PlayerToState (1 - p) ∧
         lineContent b m 4 = PlayerToState (1 - p) ∧
         (lineContent b m 5 = kInvalid ∨ lineContent b m 5 = kEmpty))) := by
  rw [Move.IsValid]
  rw [if_neg (show ¬ (m.m_start.m_row < 0 ∨ 9 ≤ m.m_start.m_row) by omega)]
  rw [if_neg (show ¬ (m.m_start.m_column < 0 ∨ 9 ≤ m.m_start.m_column) by omega)]
  rw [if_neg (show ¬ (m.m_end.m_row < 0 ∨ 9 ≤ m.m_end.m_row) by omega)]
  rw [if_neg (show ¬ (m.m_end.m_column < 0 ∨ 9 ≤ m.m_end.m_column) by omega)]
  simp only [hstart, opponent_eq]
  rw [if_neg (show ¬ (PlayerToState p ≠ PlayerToState p) by simp)]
  rw [if_neg (show ¬ ((Offsets m.m_direction).m_row ≠ m.m_end.m_row - m.m_start.m_row ∨
    (Offsets m.m_direction).m_column ≠ m.m_end.m_column - m.m_start.m_column) by
      push_neg
      omega)]
  split_ifs with g1 g2 g3 g4 g5 g6 <;> simp <;> tauto

/-- On a slide candidate (endpoints in the grid, start held by the acting
    player, `m_end - m_start` different from the direction offset),
    `Move::IsValid` holds exactly when both spans are at most 3 cells, the
    normalized step vector is a direction offset, and every visited cell holds
    the mover's marble with an in-grid empty translation by the move-direction
    offset. -/
lemma IsValid_slide_iff (m : Move) (b : Board) (p : Fin 2)
    (hb : 0 ≤ m.m_start.m_row ∧ m.m_start.m_row < 9 ∧
      0 ≤ m.m_start.m_column ∧ m.m_start.m_column < 9 ∧
      0 ≤ m.m_end.m_row ∧ m.m_end.m_row < 9 ∧
      0 ≤ m.m_end.m_column ∧ m.m_end.m_column < 9)
    (hstart : BoardAt b m.m_start.m_row m.m_start.m_column = PlayerToState p)
    (hslide : ¬ ((Offsets m.m_direction).m_row = m.m_end.m_row - m.m_start.m_row ∧
      (Offsets m.m_direction).m_column = m.m_end.m_column - m.m_start.m_column)) :
    m.IsValid b p = true ↔
      ((m.m_end.m_row - m.m_start.m_row).natAbs + 1 ≤ 3 ∧
       (m.m_end.m_column - m.m_start.m_column).natAbs + 1 ≤ 3 ∧
       (∃ d : Direction,
         (Offsets d).m_row = max (min (m.m_end.m_row - m.m_start.m_row) 1) (-1) ∧
         (Offsets d).m_column = max (min (m.m_end.m_column - m.m_start.m_column) 1) (-1)) ∧
       (∀ i : ℕ,
         i < max ((m.m_end.m_column - m.m_start.m_column).natAbs + 1)
           ((m.m_end.m_row - m.m_start.m_row).natAbs + 1) →
         (BoardAtFlat b
            (m.m_start.m_row + i * max (min (m.m_end.m_row - m.m_start.m_row) 1) (-1))
            (m.m_start.m_column + i * max (min (m.m_end.m_column - m.m_start.m_column) 1) (-1))
            = PlayerToState p ∧
          0 ≤ m.m_start.m_row + i * max (min (m.m_end.m_row - m.m_start.m_row) 1) (-1)
            + (Offsets m.m_direction).m_row ∧
          m.m_start.m_row + i * max (min (m.m_end.m_row - m.m_start.m_row) 1) (-1)
            + (Offsets m.m_direction).m_row < 9 ∧
          0 ≤ m.m_start.m_column + i * max (min (m.m_end.m_column - m.m_start.m_column) 1) (-1)
            + (Offsets m.m_direction).m_column ∧
          m.m_start.m_column + i * max (min (m.m_end.m_column - m.m_start.m_column) 1) (-1)
            + (Offsets m.m_direction).m_column < 9 ∧
          BoardAt b
            (m.m_start.m_row + i * max (min (m.m_end.m_row - m.m_start.m_row) 1) (-1)
              + (Offsets m.m_direction).m_row)
            (m.m_start.m_column + i * max (min (m.m_end.m_column - m.m_start.m_column) 1) (-1)
              + (Offsets m.m_direction).m_column)
            = kEmpty))) := by
  rw [Move.IsValid]
  rw [if_neg (show ¬ (m.m_start.m_row < 0 ∨ 9 ≤ m.m_start.m_row) by omega)]
  rw [if_neg (show ¬ (m.m_start.m_column < 0 ∨ 9 ≤ m.m_start.m_column) by omega)]
  rw [if_neg (show ¬ (m.m_end.m_row < 0 ∨ 9 ≤ m.m_end.m_row) by omega)]
  rw [if_neg (show ¬ (m.m_end.m_column < 0 ∨ 9 ≤ m.m_end.m_column) by omega)]
  simp only [hstart]
  rw [if_neg (show ¬ (PlayerToState p ≠ PlayerToState p) by simp)]
  rw [if_pos (show (Offsets m.m_direction).m_row ≠ m.m_end.m_row - m.m_start.m_row ∨
    (Offsets m.m_direction).m_column ≠ m.m_end.m_column - m.m_start.m_column by
      by_contra hcon
      push_neg at hcon
      exact hslide hcon)]
  rw [Move._IsValidSlide]
  simp only [hstart]
  rw [if_neg (show ¬ (PlayerToState p = kEmpty ∨ PlayerToState p = kInvalid) by
    push_neg
    exact ⟨PlayerToState_ne_empty p, PlayerToState_ne_invalid p⟩)]
  by_cases hr3 : 3 < (m.m_end.m_row - m.m_start.m_row).natAbs + 1
  · rw [if_pos hr3]
    constructor
    · intro hcon
      cases hcon
    · rintro ⟨hc1, -⟩
      exact absurd hc1 (by omega)
  rw [if_neg hr3]
  by_cases hc3 : 3 < (m.m_end.m_column - m.m_start.m_column).natAbs + 1
  · rw [if_pos hc3]
    constructor
    · intro hcon
      cases hcon
    · rintro ⟨-, hc2, -⟩
      exact absurd hc2 (by omega)
  rw [if_neg hc3]
  by_cases hdir : (List.finRange 6).any fun dir =>
      decide ((Offsets dir).m_row = max (min (m.m_end.m_row - m.m_start.m_row) 1) (-1) ∧
        (Offsets dir).m_column = max (min (m.m_end.m_column - m.m_start.m_column) 1) (-1))
  · rw [if_neg (show ¬ ¬ _ by
      push_neg
      exact hdir)]
    rw [slideWalk_iff]
    have hdir' : ∃ d : Direction,
        (Offsets d).m_row = max (min (m.m_end.m_row - m.m_start.m_row) 1) (-1) ∧
        (Offsets d).m_column = max (min (m.m_end.m_column - m.m_start.m_column) 1) (-1) := by
      rcases List.any_eq_true.mp hdir with ⟨d, -, hd⟩
      exact ⟨d, of_decide_eq_true hd⟩
    constructor
    · intro hwalk
      exact ⟨by omega, by omega, hdir', fun i hi => hwalk i hi⟩
    · rintro ⟨-, -, -, hwalk⟩
      exact hwalk
  · rw [if_pos (show ¬ _ from hdir)]
    constructor
    · intro hcon
      cases hcon
    · intro hcon
      exfalso
      apply hdir
      rcases hcon.2.2.1 with ⟨d, hd1, hd2⟩
      refine List.any_eq_true.mpr ⟨d, List.mem_finRange d, ?_⟩
      exact decide_eq_true ⟨hd1, hd2⟩

/-! ### Codec round trip -/

/-- Decomposed form of `ActionToMove` on a packed action id. -/
lemma actionToMove_decompose (row col : ℕ) (d : Fin 6) (t : ℕ)
    (hrow : row < 9) (hcol : col < 9) (ht : t < 5) :
    ActionToMove (((row * 9 + col) * 6 + d.val) * 5 + t) =
      let offset := Offsets d
      let slideF := Offsets (d + 1)
      let slideB := Offsets (d + 2)
      let endPoint : Coordinate :=
        if t = 0 then ⟨row + offset.m_row, col + offset.m_column⟩
        else if t = 1 then ⟨row + slideF.m_row, col + slideF.m_column⟩
        else if t = 2 then ⟨row + slideB.m_row, col + slideB.m_column⟩
        else if t = 3 then ⟨row + 2 * slideF.m_row, col + 2 * slideF.m_column⟩
        else ⟨row + 2 * slideB.m_row, col + 2 * slideB.m_column⟩
      ⟨d, ⟨row, col⟩, endPoint⟩ := by
  have h1 : (((row * 9 + col) * 6 + d.val) * 5 + t) % 5 = t := by omega
  have h2 : (((row * 9 + col) * 6 + d.val) * 5 + t) / 5 = (row * 9 + col) * 6 + d.val := by
    omega
  have h3 : ((row * 9 + col) * 6 + d.val) % 6 = d.val := by omega
  have h4 : ((row * 9 + col) * 6 + d.val) / 6 = row * 9 + col := by omega
  have h5 : (row * 9 + col) % 9 = col := by omega
  have h6 : (row * 9 + col) / 9 = row := by omega
  simp only [ActionToMove, h1, h2, h3, h4, h5, h6]

/-- Round trip on the component form of an action id, by case analysis on the
    direction and subtype. -/
lemma moveToAction_actionToMove_components (row col : ℕ) (d : Fin 6) (t : ℕ)
    (hrow : row < 9) (hcol : col < 9) (ht : t < 5) :
    MoveToAction (ActionToMove (((row * 9 + col) * 6 + d.val) * 5 + t)) =
      ((((row * 9 + col) * 6 + d.val) * 5 + t : ℕ) : ℤ) := by
  rw [actionToMove_decompose row col d t hrow hcol ht]
  fin_cases d <;> interval_cases t <;>
    simp only [MoveToAction, Offsets, Sisters, Fin.isValue] <;> norm_num [Fin.add_def] <;>
    (try split_ifs) <;> omega

/-- Encode after decode is the identity on [0, 2430). -/
lemma moveToAction_actionToMove (a : ℕ) (h : a < 2430) :
    MoveToAction (ActionToMove a) = (a : ℤ) := by
  have key := moveToAction_actionToMove_components (a / 270) (a / 30 % 9)
    ⟨a / 5 % 6, by omega⟩ (a % 5) (by omega) (by omega) (by omega)
  have ha : ((a / 270 * 9 + a / 30 % 9) * 6 + a / 5 % 6) * 5 + a % 5 = a := by omega
  simp only [] at key
  rw [ha] at key
  exact key

/-! ### Execution trace of the in-line executor -/

lemma BoardAt_oob (b : Board) {r c : ℤ} (h : ¬ (0 ≤ r ∧ r < 9 ∧ 0 ≤ c ∧ c < 9)) :
    BoardAt b r c = kInvalid := dif_neg h

lemma applySingleLoop_oob (dr dc : ℤ) (b : Board) (r c : ℤ) (x : CellState) (n : ℕ)
    (h : r < 0 ∨ 9 ≤ r ∨ c < 0 ∨ 9 ≤ c) :
    applySingleLoop dr dc b r c x (n + 1) = (b, some x) := by
  rw [applySingleLoop, if_pos h]

lemma applySingleLoop_invalid_cell (dr dc : ℤ) (b : Board) (r c : ℤ) (x : CellState) (n : ℕ)
    (h1 : ¬ (r < 0 ∨ 9 ≤ r ∨ c < 0 ∨ 9 ≤ c)) (h2 : BoardAt b r c = kInvalid) :
    applySingleLoop dr dc b r c x (n + 1) = (b, some x) := by
  rw [applySingleLoop, if_neg h1]
  simp [h2]

lemma applySingleLoop_write_empty (dr dc : ℤ) (b : Board) (r c : ℤ) (x : CellState) (n : ℕ)
    (h1 : ¬ (r < 0 ∨ 9 ≤ r ∨ c < 0 ∨ 9 ≤ c)) (h2 : BoardAt b r c = kEmpty) :
    applySingleLoop dr dc b r c x (n + 1) = (SetBoard b r c x, none) := by
  rw [applySingleLoop, if_neg h1]
  simp [h2]

lemma applySingleLoop_step (dr dc : ℤ) (b : Board) (r c : ℤ) (x : CellState) (n : ℕ)
    (h1 : ¬ (r < 0 ∨ 9 ≤ r ∨ c < 0 ∨ 9 ≤ c)) (h2 : BoardAt b r c ≠ kInvalid)
    (h3 : BoardAt b r c ≠ kEmpty) :
    applySingleLoop dr dc b r c x (n + 1) =
      applySingleLoop dr dc (SetBoard b r c x) (r + dr) (c + dc) (BoardAt b r c) n := by
  rw [applySingleLoop, if_neg h1]
  simp [h2, h3]

/-- Positions along a ray with a nonzero step vector are pairwise distinct. -/
lemma pos_ne (dr dc : ℤ) (hd : ¬ (dr = 0 ∧ dc = 0)) (r c : ℤ) (i j : ℕ) (hij : i ≠ j) :
    r + (i : ℤ) * dr ≠ r + (j : ℤ) * dr ∨ c + (i : ℤ) * dc ≠ c + (j : ℤ) * dc := by
  rcases not_and_or.mp hd with h | h
  · left
    intro hcon
    have h1 : (i : ℤ) * dr = (j : ℤ) * dr := by omega
    have h2 : (i : ℤ) = (j : ℤ) := mul_right_cancel₀ h h1
    exact hij (by exact_mod_cast h2)
  · right
    intro hcon
    have h1 : (i : ℤ) * dc = (j : ℤ) * dc := by omega
    have h2 : (i : ℤ) = (j : ℤ) := mul_right_cancel₀ h h1
    exact hij (by exact_mod_cast h2)

/-- How the in-line executor loop stops, given that the first `n` cells along
    the walk hold marbles: if the cell at index `n` is `kEmpty` the loop stops
    by absorbing the carried chain (`none`), and if it reads `kInvalid`
    (including out-of-grid positions) the loop stops carrying the content of
    the cell at index `n - 1`, which is dropped. -/
lemma applySingleLoop_run (dr dc : ℤ) (hd : ¬ (dr = 0 ∧ dc = 0)) :
    ∀ (n fuel : ℕ), n + 1 ≤ fuel →
    ∀ (b : Board) (r c : ℤ) (x : CellState),
    (∀ k : ℕ, k < n → BoardAt b (r + k * dr) (c + k * dc) ≠ kEmpty ∧
        BoardAt b (r + k * dr) (c + k * dc) ≠ kInvalid) →
    ((BoardAt b (r + n * dr) (c + n * dc) = kEmpty →
        (applySingleLoop dr dc b r c x fuel).2 = none) ∧
     (BoardAt b (r + n * dr) (c + n * dc) = kInvalid →
        (applySingleLoop dr dc b r c x fuel).2 =
          some (if n = 0 then x
            else BoardAt b (r + ((n : ℤ) - 1) * dr) (c + ((n : ℤ) - 1) * dc)))) := by
  intro n
  induction n with
  | zero =>
    intro fuel hfuel b r c x hrun
    obtain ⟨f, rfl⟩ : ∃ f, fuel = f + 1 := ⟨fuel - 1, by omega⟩
    constructor
    · intro hE
      have hE' : BoardAt b r c = kEmpty := by simpa using hE
      have hbnd : ¬ (r < 0 ∨ 9 ≤ r ∨ c < 0 ∨ 9 ≤ c) := by
        intro hcon
        have hoob := @BoardAt_oob b r c (by omega)
        rw [hoob] at hE'
        cases hE'
      rw [applySingleLoop_write_empty dr dc b r c x f hbnd hE']
    · intro hI
      have hI' : BoardAt b r c = kInvalid := by simpa using hI
      rw [if_pos rfl]
      by_cases hbnd : r < 0 ∨ 9 ≤ r ∨ c < 0 ∨ 9 ≤ c
      · rw [applySingleLoop_oob dr dc b r c x f hbnd]
      · rw [applySingleLoop_invalid_cell dr dc b r c x f hbnd hI']
  | succ n ih =>
    intro fuel hfuel b r c x hrun
    obtain ⟨f, rfl⟩ : ∃ f, fuel = f + 1 := ⟨fuel - 1, by omega⟩
    have h0 := hrun 0 (by omega)
    have h0' : BoardAt b r c ≠ kEmpty ∧ BoardAt b r c ≠ kInvalid := by simpa using h0
    have hbnd : ¬ (r < 0 ∨ 9 ≤ r ∨ c < 0 ∨ 9 ≤ c) := by
      intro hcon
      exact h0'.2 (BoardAt_oob b (by omega))
    rw [applySingleLoop_step dr dc b r c x f hbnd h0'.2 h0'.1]
    have htrans : ∀ k : ℕ,
        BoardAt (SetBoard b r c x) (r + dr + (k : ℤ) * dr) (c + dc + (k : ℤ) * dc) =
        BoardAt b (r + ((k + 1 : ℕ) : ℤ) * dr) (c + ((k + 1 : ℕ) : ℤ) * dc) := by
      intro k
      rw [show r + dr + (k : ℤ) * dr = r + ((k + 1 : ℕ) : ℤ) * dr by push_cast; ring,
          show c + dc + (k : ℤ) * dc = c + ((k + 1 : ℕ) : ℤ) * dc by push_cast; ring]
      apply BoardAt_SetBoard_ne
      have hp := pos_ne dr dc hd r c (k + 1) 0 (by omega)
      simpa using hp
    have hih := ih f (by omega) (SetBoard b r c x) (r + dr) (c + dc) (BoardAt b r c)
      (fun k hk => by
        rw [htrans k]
        exact hrun (k + 1) (by omega))
    constructor
    · intro hE
      apply hih.1
      rw [htrans n]
      exact hE
    · intro hI
      have hres := hih.2 (by
        rw [htrans n]
        exact hI)
      rw [hres]
      congr 1
      by_cases hn : n = 0
      · subst hn
        rw [if_pos rfl, if_neg (by omega : ¬ (0 + 1 = 0))]
        rw [show (((0 + 1 : ℕ) : ℤ) - 1) = ((0 : ℕ) : ℤ) by norm_num]
        simp
      · rw [if_neg hn, if_neg (by omega : ¬ (n + 1 = 0))]
        have hcast : ((n : ℤ) - 1) = ((n - 1 : ℕ) : ℤ) := by omega
        rw [hcast, htrans (n - 1)]
        have e1 : ((n - 1 + 1 : ℕ) : ℤ) = ((n + 1 : ℕ) : ℤ) - 1 := by omega
        rw [e1]

lemma Offsets_ne_zero (d : Direction) :
    ¬ ((Offsets d).m_row = 0 ∧ (Offsets d).m_column = 0) := by
  fin_cases d <;> decide

/-- Reading a shifted-by-one position on a board written at the walk origin. -/
lemma BoardAt_SetBoard_pos (dr dc : ℤ) (hd : ¬ (dr = 0 ∧ dc = 0))
    (b : Board) (r c : ℤ) (x : CellState) (k : ℕ) :
    BoardAt (SetBoard b r c x) (r + dr + (k : ℤ) * dr) (c + dc + (k : ℤ) * dc) =
      BoardAt b (r + ((k + 1 : ℕ) : ℤ) * dr) (c + ((k + 1 : ℕ) : ℤ) * dc) := by
  rw [show r + dr + (k : ℤ) * dr = r + ((k + 1 : ℕ) : ℤ) * dr by push_cast; ring,
      show c + dc + (k : ℤ) * dc = c + ((k + 1 : ℕ) : ℤ) * dc by push_cast; ring]
  apply BoardAt_SetBoard_ne
  have hp := pos_ne dr dc hd r c (k + 1) 0 (by omega)
  simpa using hp

/-- The in-line executor loop only writes to cells on its walk. -/
lemma applySingleLoop_frame (dr dc : ℤ) :
    ∀ (fuel : ℕ) (b : Board) (r c : ℤ) (x : CellState) (r' c' : ℤ),
    (∀ k : ℕ, k < fuel → (r' ≠ r + k * dr ∨ c' ≠ c + k * dc)) →
    BoardAt (applySingleLoop dr dc b r c x fuel).1 r' c' = BoardAt b r' c' := by
  intro fuel
  induction fuel with
  | zero =>
    intro b r c x r' c' hne
    simp [applySingleLoop]
  | succ n ih =>
    intro b r c x r' c' hne
    have hne0 : r' ≠ r ∨ c' ≠ c := by
      have := hne 0 (by omega)
      simpa using this
    rw [applySingleLoop]
    by_cases hb : r < 0 ∨ 9 ≤ r ∨ c < 0 ∨ 9 ≤ c
    · rw [if_pos hb]
    · rw [if_neg hb]
      by_cases hinv : BoardAt b r c = kInvalid
      · simp [hinv]
      · simp only [if_neg hinv]
        by_cases hemp : BoardAt b r c = kEmpty
        · simp only [if_pos hemp]
          exact BoardAt_SetBoard_ne b x hne0
        · simp only [if_neg hemp]
          rw [ih (SetBoard b r c x) (r + dr) (c + dc) (BoardAt b r c) r' c'
            (fun k hk => by
              have := hne (k + 1) (by omega)
              rcases this with h | h
              · left
                intro hcon
                apply h
                push_cast at hcon ⊢
                linear_combination hcon
              · right
                intro hcon
                apply h
                push_cast at hcon ⊢
                linear_combination hcon)]
          exact BoardAt_SetBoard_ne b x hne0

/-- When the walk run from the start holds marbles and stops on `kEmpty`, the
    final board holds the initial carry at the start and the content of the
    previous cell at every later visited cell: the whole run is shifted one
    step. -/
lemma applySingleLoop_shift (dr dc : ℤ) (hd : ¬ (dr = 0 ∧ dc = 0)) :
    ∀ (n fuel : ℕ), n + 1 ≤ fuel →
    ∀ (b : Board) (r c : ℤ) (x : CellState),
    (∀ k : ℕ, k < n → BoardAt b (r + k * dr) (c + k * dc) ≠ kEmpty ∧
        BoardAt b (r + k * dr) (c + k * dc) ≠ kInvalid) →
    BoardAt b (r + n * dr) (c + n * dc) = kEmpty →
    (BoardAt (applySingleLoop dr dc b r c x fuel).1 r c = x ∧
     ∀ k : ℕ, 1 ≤ k → k ≤ n →
       BoardAt (applySingleLoop dr dc b r c x fuel).1 (r + k * dr) (c + k * dc) =
         BoardAt b (r + ((k : ℤ) - 1) * dr) (c + ((k : ℤ) - 1) * dc)) := by
  intro n
  induction n with
  | zero =>
    intro fuel hfuel b r c x hrun hE
    obtain ⟨f, rfl⟩ : ∃ f, fuel = f + 1 := ⟨fuel - 1, by omega⟩
    have hE' : BoardAt b r c = kEmpty := by simpa using hE
    have hbnd : ¬ (r < 0 ∨ 9 ≤ r ∨ c < 0 ∨ 9 ≤ c) := by
      intro hcon
      have hoob := @BoardAt_oob b r c (by omega)
      rw [hoob] at hE'
      cases hE'
    rw [applySingleLoop_write_empty dr dc b r c x f hbnd hE']
    constructor
    · exact BoardAt_SetBoard_same b x (by omega)
    · intro k h1 h2
      omega
  | succ n ih =>
    intro fuel hfuel b r c x hrun hE
    obtain ⟨f, rfl⟩ : ∃ f, fuel = f + 1 := ⟨fuel - 1, by omega⟩
    have h0 := hrun 0 (by omega)
    have h0' : BoardAt b r c ≠ kEmpty ∧ BoardAt b r c ≠ kInvalid := by simpa using h0
    have hbnd : ¬ (r < 0 ∨ 9 ≤ r ∨ c < 0 ∨ 9 ≤ c) := by
      intro hcon
      exact h0'.2 (BoardAt_oob b (by omega))
    rw [applySingleLoop_step dr dc b r c x f hbnd h0'.2 h0'.1]
    have hih := ih f (by omega) (SetBoard b r c x) (r + dr) (c + dc) (BoardAt b r c)
      (fun k hk => by
        rw [BoardAt_SetBoard_pos dr dc hd b r c x k]
        exact hrun (k + 1) (by omega))
      (by
        rw [BoardAt_SetBoard_pos dr dc hd b r c x n]
        exact hE)
    constructor
    · -- the start cell keeps the just-written carry: later writes are on the
      -- shifted walk, which never revisits the start
      rw [applySingleLoop_frame dr dc f (SetBoard b r c x) (r + dr) (c + dc)
        (BoardAt b r c) r c
        (fun k hk => by
          have hp := pos_ne dr dc hd r c 0 (k + 1) (by omega)
          rcases hp with h | h
          · left
            intro hcon
            apply h
            push_cast at hcon ⊢
            linear_combination hcon
          · right
            intro hcon
            apply h
            push_cast at hcon ⊢
            linear_combination hcon)]
      exact BoardAt_SetBoard_same b x (by omega)
    · intro k h1 h2
      obtain ⟨k2, rfl⟩ : ∃ k2, k = k2 + 1 := ⟨k - 1, by omega⟩
      by_cases hk2 : k2 = 0
      · subst hk2
        have := hih.1
        rw [show r + ((0 + 1 : ℕ) : ℤ) * dr = r + dr by push_cast; ring,
            show c + ((0 + 1 : ℕ) : ℤ) * dc = c + dc by push_cast; ring]
        rw [this]
        rw [show r + (((0 + 1 : ℕ) : ℤ) - 1) * dr = r by push_cast; ring,
            show c + (((0 + 1 : ℕ) : ℤ) - 1) * dc = c by push_cast; ring]
      · have hrec := hih.2 k2 (by omega) (by omega)
        rw [show r + ((k2 + 1 : ℕ) : ℤ) * dr = r + dr + (k2 : ℤ) * dr by push_cast; ring,
            show c + ((k2 + 1 : ℕ) : ℤ) * dc = c + dc + (k2 : ℤ) * dc by push_cast; ring]
        rw [hrec]
        obtain ⟨k3, rfl⟩ : ∃ k3, k2 = k3 + 1 := ⟨k2 - 1, by omega⟩
        rw [show r + dr + (((k3 + 1 : ℕ) : ℤ) - 1) * dr = r + dr + (k3 : ℤ) * dr by
              push_cast; ring,
            show c + dc + (((k3 + 1 : ℕ) : ℤ) - 1) * dc = c + dc + (k3 : ℤ) * dc by
              push_cast; ring]
        rw [BoardAt_SetBoard_pos dr dc hd b r c x k3]
        rw [show r + (((k3 + 1 + 1 : ℕ) : ℤ) - 1) * dr = r + ((k3 + 1 : ℕ) : ℤ) * dr by
              push_cast; ring,
            show c + (((k3 + 1 + 1 : ℕ) : ℤ) - 1) * dc = c + ((k3 + 1 : ℕ) : ℤ) * dc by
              push_cast; ring]

lemma BoardAt_ne_invalid_bounds {b : Board} {r c : ℤ} (h : BoardAt b r c ≠ kInvalid) :
    0 ≤ r ∧ r < 9 ∧ 0 ≤ c ∧ c < 9 := by
  by_contra hcon
  exact h (BoardAt_oob b hcon)

/-- Assembling the conservation conclusions when the in-line walk stopped by
    absorbing the chain into an empty cell. -/
lemma C7_assemble_none (m : Move) (b : Board) (dr dc : ℤ)
    (happly : m.Apply b =
      (applySingleLoop dr dc b m.m_start.m_row m.m_start.m_column kEmpty 100).1)
    (hsnd : (applySingleLoop dr dc b m.m_start.m_row m.m_start.m_column kEmpty 100).2 = none)
    (hpush : pushedOffBoard b m = false) :
    totalMarbles (m.Apply b) ≤ totalMarbles b ∧
    (totalMarbles (m.Apply b) < totalMarbles b ↔ pushedOffBoard b m = true) ∧
    (pushedOffBoard b m = false →
      countCell (m.Apply b) kPlayer1 = countCell b kPlayer1 ∧
      countCell (m.Apply b) kPlayer2 = countCell b kPlayer2) := by
  have h1 := applySingleLoop_count dr dc kPlayer1 (by decide) 100 b
    m.m_start.m_row m.m_start.m_column kEmpty
  have h2 := applySingleLoop_count dr dc kPlayer2 (by decide) 100 b
    m.m_start.m_row m.m_start.m_column kEmpty
  rw [hsnd] at h1 h2
  rw [if_neg (show ¬ ((none : Option CellState) = some kPlayer1) by simp),
      if_neg (show kEmpty ≠ kPlayer1 by decide), add_zero, add_zero] at h1
  rw [if_neg (show ¬ ((none : Option CellState) = some kPlayer2) by simp),
      if_neg (show kEmpty ≠ kPlayer2 by decide), add_zero, add_zero] at h2
  rw [happly, totalMarbles, totalMarbles, hpush]
  refine ⟨by omega, ?_, fun _ => ⟨h1, h2⟩⟩
  constructor
  · intro hcon
    exact absurd hcon (by omega)
  · intro hcon
    cases hcon

/-- Assembling the conservation conclusions when the in-line walk dropped a
    marble of player `q` beyond the board. -/
lemma C7_assemble_some (m : Move) (b : Board) (q : Fin 2) (dr dc : ℤ)
    (happly : m.Apply b =
      (applySingleLoop dr dc b m.m_start.m_row m.m_start.m_column kEmpty 100).1)
    (hsnd : (applySingleLoop dr dc b m.m_start.m_row m.m_start.m_column kEmpty 100).2 =
      some (PlayerToState q))
    (hpush : pushedOffBoard b m = true) :
    totalMarbles (m.Apply b) ≤ totalMarbles b ∧
    (totalMarbles (m.Apply b) < totalMarbles b ↔ pushedOffBoard b m = true) ∧
    (pushedOffBoard b m = false →
      countCell (m.Apply b) kPlayer1 = countCell b kPlayer1 ∧
      countCell (m.Apply b) kPlayer2 = countCell b kPlayer2) := by
  have h1 := applySingleLoop_count dr dc kPlayer1 (by decide) 100 b
    m.m_start.m_row m.m_start.m_column kEmpty
  have h2 := applySingleLoop_count dr dc kPlayer2 (by decide) 100 b
    m.m_start.m_row m.m_start.m_column kEmpty
  rw [hsnd] at h1 h2
  have hq : q = 0 ∨ q = 1 := by omega
  rcases hq with rfl | rfl
  · rw [if_pos (show (some (PlayerToState 0) : Option CellState) = some kPlayer1 by decide),
        if_neg (show kEmpty ≠ kPlayer1 by decide), add_zero] at h1
    rw [if_neg (show ¬ ((some (PlayerToState 0) : Option CellState) = some kPlayer2) by decide),
        if_neg (show kEmpty ≠ kPlayer2 by decide), add_zero, add_zero] at h2
    rw [happly, totalMarbles, totalMarbles, hpush]
    refine ⟨by omega, ⟨fun _ => rfl, fun _ => by omega⟩, fun hcon => by cases hcon⟩
  · rw [if_neg (show ¬ ((some (PlayerToState 1) : Option CellState) = some kPlayer1) by decide),
        if_neg (show kEmpty ≠ kPlayer1 by decide), add_zero, add_zero] at h1
    rw [if_pos (show (some (PlayerToState 1) : Option CellState) = some kPlayer2 by decide),
        if_neg (show kEmpty ≠ kPlayer2 by decide), add_zero] at h2
    rw [happly, totalMarbles, totalMarbles, hpush]
    refine ⟨by omega, ⟨fun _ => rfl, fun _ => by omega⟩, fun hcon => by cases hcon⟩


/-- Marble conservation of the in-line executor under the six sumito
    patterns. -/
lemma C7_core (b : Board) (p : Fin 2) (m : Move)
    (hstart : BoardAt b m.m_start.m_row m.m_start.m_column = PlayerToState p)
    (hinr : m.m_end.m_row - m.m_start.m_row = (Offsets m.m_direction).m_row)
    (hinc : m.m_end.m_column - m.m_start.m_column = (Offsets m.m_direction).m_column)
    (hpat : specInlinePatterns b m p) :
    totalMarbles (m.Apply b) ≤ totalMarbles b ∧
    (totalMarbles (m.Apply b) < totalMarbles b ↔ pushedOffBoard b m = true) ∧
    (pushedOffBoard b m = false →
      countCell (m.Apply b) kPlayer1 = countCell b kPlayer1 ∧
      countCell (m.Apply b) kPlayer2 = countCell b kPlayer2) := by
  have hd := Offsets_ne_zero m.m_direction
  have hL : ∀ k : ℕ, lineContent b m k = BoardAt b
      (m.m_start.m_row + k * (Offsets m.m_direction).m_row)
      (m.m_start.m_column + k * (Offsets m.m_direction).m_column) := by
    intro k
    rw [lineContent, hinr, hinc]
  have hL0 : lineContent b m 0 = PlayerToState p := by
    rw [hL 0]
    simpa using hstart
  have happly : m.Apply b = (applySingleLoop (Offsets m.m_direction).m_row
      (Offsets m.m_direction).m_column b m.m_start.m_row m.m_start.m_column kEmpty 100).1 := by
    rw [Move.Apply, if_neg (by push_neg; exact ⟨hinr.symm, hinc.symm⟩), Move._ApplySingleMove]
  have hrun := applySingleLoop_run (Offsets m.m_direction).m_row
    (Offsets m.m_direction).m_column hd
  have hne1 := PlayerToState_ne_empty p
  have hne2 := PlayerToState_ne_invalid p
  have hne3 := PlayerToState_ne_empty (1 - p)
  have hne4 := PlayerToState_ne_invalid (1 - p)
  unfold specInlinePatterns at hpat
  rcases hpat with hp | hp | hp | hp | hp | hp
  · -- (a) position 1 Empty: single marble slides into the empty cell
    have hrh : ∀ k : ℕ, k < 1 →
        BoardAt b (m.m_start.m_row + k * (Offsets m.m_direction).m_row)
          (m.m_start.m_column + k * (Offsets m.m_direction).m_column) ≠ kEmpty ∧
        BoardAt b (m.m_start.m_row + k * (Offsets m.m_direction).m_row)
          (m.m_start.m_column + k * (Offsets m.m_direction).m_column) ≠ kInvalid := by
      intro k hk
      interval_cases k
      exact ⟨by rw [← hL 0, hL0]; exact hne1, by rw [← hL 0, hL0]; exact hne2⟩
    have hstop := hrun 1 100 (by omega) b m.m_start.m_row m.m_start.m_column kEmpty hrh
    have hsnd := hstop.1 (by rw [← hL 1]; exact hp)
    have hpush : pushedOffBoard b m = false := by
      simp [pushedOffBoard, hp]
    exact C7_assemble_none m b _ _ happly hsnd hpush
  · -- (b) positions 1 own, 2 Empty
    have hrh : ∀ k : ℕ, k < 2 →
        BoardAt b (m.m_start.m_row + k * (Offsets m.m_direction).m_row)
          (m.m_start.m_column + k * (Offsets m.m_direction).m_column) ≠ kEmpty ∧
        BoardAt b (m.m_start.m_row + k * (Offsets m.m_direction).m_row)
          (m.m_start.m_column + k * (Offsets m.m_direction).m_column) ≠ kInvalid := by
      intro k hk
      interval_cases k
      · exact ⟨by rw [← hL 0, hL0]; exact hne1, by rw [← hL 0, hL0]; exact hne2⟩
      · exact ⟨by rw [← hL 1, hp.1]; exact hne1, by rw [← hL 1, hp.1]; exact hne2⟩
    have hstop := hrun 2 100 (by omega) b m.m_start.m_row m.m_start.m_column kEmpty hrh
    have hsnd := hstop.1 (by rw [← hL 2]; exact hp.2)
    have hpush : pushedOffBoard b m = false := by
      simp [pushedOffBoard, hp.1, hp.2, hne1, hne2]
    exact C7_assemble_none m b _ _ happly hsnd hpush
  · -- (c) 2-versus-1 push: positions 1 own, 2 opponent, 3 Empty-or-Invalid
    have hrh : ∀ k : ℕ, k < 3 →
        BoardAt b (m.m_start.m_row + k * (Offsets m.m_direction).m_row)
          (m.m_start.m_column + k * (Offsets m.m_direction).m_column) ≠ kEmpty ∧
        BoardAt b (m.m_start.m_row + k * (Offsets m.m_direction).m_row)
          (m.m_start.m_column + k * (Offsets m.m_direction).m_column) ≠ kInvalid := by
      intro k hk
      interval_cases k
      · exact ⟨by rw [← hL 0, hL0]; exact hne1, by rw [← hL 0, hL0]; exact hne2⟩
      · exact ⟨by rw [← hL 1, hp.1]; exact hne1, by rw [← hL 1, hp.1]; exact hne2⟩
      · exact ⟨by rw [← hL 2, hp.2.1]; exact hne3, by rw [← hL 2, hp.2.1]; exact hne4⟩
    have hstop := hrun 3 100 (by omega) b m.m_start.m_row m.m_start.m_column kEmpty hrh
    rcases hp.2.2 with hI | hE
    · have hsnd := hstop.2 (by rw [← hL 3]; exact hI)
      rw [if_neg (show ¬ ((3 : ℕ) = 0) by omega),
        show (((3 : ℕ) : ℤ) - 1) = ((2 : ℕ) : ℤ) by norm_num] at hsnd
      rw [← hL 2, hp.2.1] at hsnd
      have hpush : pushedOffBoard b m = true := by
        simp [pushedOffBoard, hp.1, hp.2.1, hI, hne1, hne2, hne3, hne4]
      exact C7_assemble_some m b (1 - p) _ _ happly hsnd hpush
    · have hsnd := hstop.1 (by rw [← hL 3]; exact hE)
      have hpush : pushedOffBoard b m = false := by
        simp [pushedOffBoard, hp.1, hp.2.1, hE, hne1, hne2, hne3, hne4]
      exact C7_assemble_none m b _ _ happly hsnd hpush
  · -- (d) positions 1,2 own, 3 Empty
    have hrh : ∀ k : ℕ, k < 3 →
        BoardAt b (m.m_start.m_row + k * (Offsets m.m_direction).m_row)
          (m.m_start.m_column + k * (Offsets m.m_direction).m_column) ≠ kEmpty ∧
        BoardAt b (m.m_start.m_row + k * (Offsets m.m_direction).m_row)
          (m.m_start.m_column + k * (Offsets m.m_direction).m_column) ≠ kInvalid := by
      intro k hk
      interval_cases k
      · exact ⟨by rw [← hL 0, hL0]; exact hne1, by rw [← hL 0, hL0]; exact hne2⟩
      · exact ⟨by rw [← hL 1, hp.1]; exact hne1, by rw [← hL 1, hp.1]; exact hne2⟩
      · exact ⟨by rw [← hL 2, hp.2.1]; exact hne1, by rw [← hL 2, hp.2.1]; exact hne2⟩
    have hstop := hrun 3 100 (by omega) b m.m_start.m_row m.m_start.m_column kEmpty hrh
    have hsnd := hstop.1 (by rw [← hL 3]; exact hp.2.2)
    have hpush : pushedOffBoard b m = false := by
      simp [pushedOffBoard, hp.1, hp.2.1, hp.2.2, hne1, hne2]
    exact C7_assemble_none m b _ _ happly hsnd hpush
  · -- (e) 3-versus-1 push: positions 1,2 own, 3 opponent, 4 Empty-or-Invalid
    have hrh : ∀ k : ℕ, k < 4 →
        BoardAt b (m.m_start.m_row + k * (Offsets m.m_direction).m_row)
          (m.m_start.m_column + k * (Offsets m.m_direction).m_column) ≠ kEmpty ∧
        BoardAt b (m.m_start.m_row + k * (Offsets m.m_direction).m_row)
          (m.m_start.m_column + k * (Offsets m.m_direction).m_column) ≠ kInvalid := by
      intro k hk
      interval_cases k
      · exact ⟨by rw [← hL 0, hL0]; exact hne1, by rw [← hL 0, hL0]; exact hne2⟩
      · exact ⟨by rw [← hL 1, hp.1]; exact hne1, by rw [← hL 1, hp.1]; exact hne2⟩
      · exact ⟨by rw [← hL 2, hp.2.1]; exact hne1, by rw [← hL 2, hp.2.1]; exact hne2⟩
      · exact ⟨by rw [← hL 3, hp.2.2.1]; exact hne3, by rw [← hL 3, hp.2.2.1]; exact hne4⟩
    have hstop := hrun 4 100 (by omega) b m.m_start.m_row m.m_start.m_column kEmpty hrh
    rcases hp.2.2.2 with hI | hE
    · have hsnd := hstop.2 (by rw [← hL 4]; exact hI)
      rw [if_neg (show ¬ ((4 : ℕ) = 0) by omega),
        show (((4 : ℕ) : ℤ) - 1) = ((3 : ℕ) : ℤ) by norm_num] at hsnd
      rw [← hL 3, hp.2.2.1] at hsnd
      have hpush : pushedOffBoard b m = true := by
        simp [pushedOffBoard, hp.1, hp.2.1, hp.2.2.1, hI, hne1, hne2, hne3, hne4]
      exact C7_assemble_some m b (1 - p) _ _ happly hsnd hpush
    · have hsnd := hstop.1 (by rw [← hL 4]; exact hE)
      have hpush : pushedOffBoard b m = false := by
        simp [pushedOffBoard, hp.1, hp.2.1, hp.2.2.1, hE, hne1, hne2, hne3, hne4]
      exact C7_assemble_none m b _ _ happly hsnd hpush
  · -- (f) 3-versus-2 push: positions 1,2 own, 3,4 opponent, 5 Empty-or-Invalid
    have hrh : ∀ k : ℕ, k < 5 →
        BoardAt b (m.m_start.m_row + k * (Offsets m.m_direction).m_row)
          (m.m_start.m_column + k * (Offsets m.m_direction).m_column) ≠ kEmpty ∧
        BoardAt b (m.m_start.m_row + k * (Offsets m.m_direction).m_row)
          (m.m_start.m_column + k * (Offsets m.m_direction).m_column) ≠ kInvalid := by
      intro k hk
      interval_cases k
      · exact ⟨by rw [← hL 0, hL0]; exact hne1, by rw [← hL 0, hL0]; exact hne2⟩
      · exact ⟨by rw [← hL 1, hp.1]; exact hne1, by rw [← hL 1, hp.1]; exact hne2⟩
      · exact ⟨by rw [← hL 2, hp.2.1]; exact hne1, by rw [← hL 2, hp.2.1]; exact hne2⟩
      · exact ⟨by rw [← hL 3, hp.2.2.1]; exact hne3, by rw [← hL 3, hp.2.2.1]; exact hne4⟩
      · exact ⟨by rw [← hL 4, hp.2.2.2.1]; exact hne3, by rw [← hL 4, hp.2.2.2.1]; exact hne4⟩
    have hstop := hrun 5 100 (by omega) b m.m_start.m_row m.m_start.m_column kEmpty hrh
    rcases hp.2.2.2.2 with hI | hE
    · have hsnd := hstop.2 (by rw [← hL 5]; exact hI)
      rw [if_neg (show ¬ ((5 : ℕ) = 0) by omega),
        show (((5 : ℕ) : ℤ) - 1) = ((4 : ℕ) : ℤ) by norm_num] at hsnd
      rw [← hL 4, hp.2.2.2.1] at hsnd
      have hpush : pushedOffBoard b m = true := by
        simp [pushedOffBoard, hp.1, hp.2.1, hp.2.2.1, hp.2.2.2.1, hI, hne1, hne2, hne3, hne4]
      exact C7_assemble_some m b (1 - p) _ _ happly hsnd hpush
    · have hsnd := hstop.1 (by rw [← hL 5]; exact hE)
      have hpush : pushedOffBoard b m = false := by
        simp [pushedOffBoard, hp.1, hp.2.1, hp.2.2.1, hp.2.2.2.1, hE, hne1, hne2, hne3, hne4]
      exact C7_assemble_none m b _ _ happly hsnd hpush

/-- The shift behaviour of a non-ejecting in-line push: when the line content
    holds marbles up to an empty stop cell, the start cell is cleared and
    every later visited cell receives the content of its predecessor. -/
lemma inline_shift (b : Board) (m : Move)
    (hinr : m.m_end.m_row - m.m_start.m_row = (Offsets m.m_direction).m_row)
    (hinc : m.m_end.m_column - m.m_start.m_column = (Offsets m.m_direction).m_column)
    (j : ℕ)
    (hrunL : ∀ k : ℕ, k < j → lineContent b m k ≠ kEmpty ∧ lineContent b m k ≠ kInvalid)
    (hstopL : lineContent b m j = kEmpty) :
    BoardAt (m.Apply b) m.m_start.m_row m.m_start.m_column = kEmpty ∧
    ∀ k : ℕ, 1 ≤ k → k ≤ j →
      BoardAt (m.Apply b)
        (m.m_start.m_row + k * (Offsets m.m_direction).m_row)
        (m.m_start.m_column + k * (Offsets m.m_direction).m_column) =
        lineContent b m (k - 1) := by
  have hd := Offsets_ne_zero m.m_direction
  have hL : ∀ k : ℕ, lineContent b m k = BoardAt b
      (m.m_start.m_row + k * (Offsets m.m_direction).m_row)
      (m.m_start.m_column + k * (Offsets m.m_direction).m_column) := by
    intro k
    rw [lineContent, hinr, hinc]
  have happly : m.Apply b = (applySingleLoop (Offsets m.m_direction).m_row
      (Offsets m.m_direction).m_column b m.m_start.m_row m.m_start.m_column kEmpty 100).1 := by
    rw [Move.Apply, if_neg (by push_neg; exact ⟨hinr.symm, hinc.symm⟩), Move._ApplySingleMove]
  have hj : j ≤ 9 := by
    by_contra hcon
    push_neg at hcon
    have h0 := (hrunL 0 (by omega)).2
    have h9 := (hrunL 9 (by omega)).2
    rw [hL 0] at h0
    rw [hL 9] at h9
    have hb0 := BoardAt_ne_invalid_bounds h0
    have hb9 := BoardAt_ne_invalid_bounds h9
    push_cast at hb0 hb9
    rcases not_and_or.mp hd with h | h <;> omega
  have hshift := applySingleLoop_shift (Offsets m.m_direction).m_row
    (Offsets m.m_direction).m_column hd j 100 (by omega) b
    m.m_start.m_row m.m_start.m_column kEmpty
    (fun k hk => by
      rw [← hL k]
      exact hrunL k hk)
    (by
      rw [← hL j]
      exact hstopL)
  rw [happly]
  refine ⟨hshift.1, ?_⟩
  intro k h1 h2
  rw [hshift.2 k h1 h2]
  rw [show ((k : ℤ) - 1) = ((k - 1 : ℕ) : ℤ) by omega]
  rw [← hL (k - 1)]


/-! ### Claim theorems -/

/-- Claim C1: for every integer a in [0, rows*cols*6*5), encoding the Move
    obtained by decoding a yields a again, and decoding the encoding of a
    decoder-produced Move yields an equal Move. -/
theorem C1_codec_round_trip (a : ℕ) (h : a < 9 * 9 * 6 * 5) :
    MoveToAction (ActionToMove a) = (a : ℤ) ∧
    ActionToMove ((MoveToAction (ActionToMove a)).toNat) = ActionToMove a := by
  have h1 := moveToAction_actionToMove a (by omega)
  refine ⟨h1, ?_⟩
  rw [h1]
  simp

theorem C1_codec_round_trip_witness :
    1234 < 9 * 9 * 6 * 5 ∧
      (MoveToAction (ActionToMove 1234) = (1234 : ℤ) ∧
        ActionToMove ((MoveToAction (ActionToMove 1234)).toNat) = ActionToMove 1234) :=
  ⟨by decide, C1_codec_round_trip 1234 (by decide)⟩

/-- Claim C3 (amended): on a non-terminal state, when the decoded move is
    legal the current player toggles exactly once and the move counter
    increases by one; when it is illegal, `DoApplyAction` returns after
    setting the outcome, leaving player, counter and board unchanged. -/
theorem C3_amended_toggle (s : GameState) (a : ℕ) (hterm : s.IsTerminal = false) :
    ((ActionToMove a).IsValid s.board_ s.current_player_ = true →
      (s.DoApplyAction a).current_player_ = 1 - s.current_player_ ∧
      (s.DoApplyAction a).num_moves_ = s.num_moves_ + 1) ∧
    ((ActionToMove a).IsValid s.board_ s.current_player_ = false →
      (s.DoApplyAction a).current_player_ = s.current_player_ ∧
      (s.DoApplyAction a).num_moves_ = s.num_moves_ ∧
      (s.DoApplyAction a).board_ = s.board_ ∧
      (s.DoApplyAction a).outcome_ = some (1 - s.current_player_)) := by
  constructor
  · intro h
    simp [GameState.DoApplyAction, h]
  · intro h
    simp [GameState.DoApplyAction, h]

theorem C3_amended_toggle_witness :
    NewInitialState.IsTerminal = false ∧
    (((ActionToMove 1690).IsValid NewInitialState.board_ NewInitialState.current_player_ = true →
      (NewInitialState.DoApplyAction 1690).current_player_ = 1 - NewInitialState.current_player_ ∧
      (NewInitialState.DoApplyAction 1690).num_moves_ = NewInitialState.num_moves_ + 1) ∧
    ((ActionToMove 1690).IsValid NewInitialState.board_ NewInitialState.current_player_ = false →
      (NewInitialState.DoApplyAction 1690).current_player_ = NewInitialState.current_player_ ∧
      (NewInitialState.DoApplyAction 1690).num_moves_ = NewInitialState.num_moves_ ∧
      (NewInitialState.DoApplyAction 1690).board_ = NewInitialState.board_ ∧
      (NewInitialState.DoApplyAction 1690).outcome_ =
        some (1 - NewInitialState.current_player_))) :=
  ⟨by decide, C3_amended_toggle NewInitialState 1690 (by decide)⟩

/-- Claim C3 as stated is false: on the non-terminal initial state, action 0
    decodes to a move whose start cell is `kInvalid`, so it forfeits, and
    `DoApplyAction` returns early: the current player stays 0 and the move
    counter stays 0 instead of toggling and incrementing. -/
theorem C3_counterexample :
    NewInitialState.IsTerminal = false ∧
    NewInitialState.current_player_ = 0 ∧
    NewInitialState.num_moves_ = 0 ∧
    (ActionToMove 0).IsValid NewInitialState.board_ NewInitialState.current_player_ = false ∧
    (NewInitialState.DoApplyAction 0).current_player_ = 0 ∧
    (NewInitialState.DoApplyAction 0).num_moves_ = 0 := by
  have h : (ActionToMove 0).IsValid ABALONE_INIT_CLASSIC 0 = false := by decide
  refine ⟨by decide, by decide, by decide, by decide, ?_, ?_⟩ <;>
    simp [GameState.DoApplyAction, NewInitialState, h]

/-- Claim C5: applying a decodable-but-illegal action on a non-terminal state
    leaves the board unchanged, makes the state terminal, and returns the
    zero-sum pair against the submitting player, independent of board
    content. -/
theorem C5_forfeiture (s : GameState) (a : ℕ) (ha : a < 9 * 9 * 6 * 5)
    (hterm : s.IsTerminal = false)
    (hinv : (ActionToMove a).IsValid s.board_ s.current_player_ = false) :
    (s.DoApplyAction a).board_ = s.board_ ∧
    (s.DoApplyAction a).IsTerminal = true ∧
    (s.DoApplyAction a).Returns =
      (if s.current_player_ = 0 then ((-1 : ℚ), (1 : ℚ)) else (1, -1)) := by
  have hcp : s.current_player_ = 0 ∨ s.current_player_ = 1 := by omega
  refine ⟨?_, ?_, ?_⟩
  · simp only [GameState.DoApplyAction, hinv, Bool.false_eq_true, if_false]
  · simp only [GameState.DoApplyAction, hinv, Bool.false_eq_true, if_false,
      GameState.IsTerminal]
    simp
  · simp only [GameState.DoApplyAction, hinv, Bool.false_eq_true, if_false]
    rcases hcp with hcp | hcp <;>
      simp [GameState.Returns, ReturnsOf, hcp]

theorem C5_forfeiture_witness :
    0 < 9 * 9 * 6 * 5 ∧
    NewInitialState.IsTerminal = false ∧
    (ActionToMove 0).IsValid NewInitialState.board_ NewInitialState.current_player_ = false ∧
    ((NewInitialState.DoApplyAction 0).board_ = NewInitialState.board_ ∧
      (NewInitialState.DoApplyAction 0).IsTerminal = true ∧
      (NewInitialState.DoApplyAction 0).Returns =
        (if NewInitialState.current_player_ = 0 then ((-1 : ℚ), (1 : ℚ)) else (1, -1))) :=
  ⟨by decide, by decide, by decide,
    C5_forfeiture NewInitialState 0 (by decide) (by decide) (by decide)⟩

/-- Claim C6 is false as stated: decoding an out-of-range action id does not
    abort; `ActionToMove` performs no range check and at id 2430 (the first id
    past the action space) silently produces the move with direction RIGHT,
    start (9, 0) and end (9, 1). -/
theorem C6_counterexample :
    ActionToMove (9 * 9 * 6 * 5) = ⟨0, ⟨9, 0⟩, ⟨9, 1⟩⟩ := by decide

/-- Claim C6 (amended): decoding an action id outside [0, totalActions) does
    not abort: it silently yields a Move whose start row is id / 270, which
    lies outside the grid, so the decoded move is rejected by `Move::IsValid`
    on every board and for every player. -/
theorem C6_amended_no_abort (a : ℕ) (h : 9 * 9 * 6 * 5 ≤ a) :
    (9 : ℤ) ≤ (ActionToMove a).m_start.m_row ∧
    ∀ (b : Board) (p : Fin 2), (ActionToMove a).IsValid b p = false := by
  have hrow : (ActionToMove a).m_start.m_row = ((a / 5 / 6 / 9 : ℕ) : ℤ) := rfl
  constructor
  · rw [hrow]
    omega
  · intro b p
    rw [Move.IsValid, if_pos (Or.inr (by rw [hrow]; omega))]

theorem C6_amended_no_abort_witness :
    9 * 9 * 6 * 5 ≤ 2430 ∧
    ((9 : ℤ) ≤ (ActionToMove 2430).m_start.m_row ∧
      ∀ (b : Board) (p : Fin 2), (ActionToMove 2430).IsValid b p = false) :=
  ⟨by decide, C6_amended_no_abort 2430 (by decide)⟩

/-- Claim C8 is false as stated: action 1890 is the action moving the marble
    at row b, column 1 (grid cell (7, 0)) one step in the direction with
    offset (0, +1), but in the classic layout the destination b2 (grid cell
    (7, 1)) holds the mover's own marble, not Empty; the move is illegal, the
    source cell stays kPlayer1 (it does not become Empty), the current player
    stays 0 and the move counter stays 0. -/
theorem C8_counterexample :
    ActionToMove 1890 = ⟨0, ⟨7, 0⟩, ⟨7, 1⟩⟩ ∧
    Offsets 0 = ⟨0, 1⟩ ∧
    ¬ (BoardAt (NewInitialState.DoApplyAction 1890).board_ 7 0 = kEmpty ∧
       BoardAt (NewInitialState.DoApplyAction 1890).board_ 7 1 = kPlayer1 ∧
       (NewInitialState.DoApplyAction 1890).current_player_ = 1 ∧
       (NewInitialState.DoApplyAction 1890).num_moves_ = 1 ∧
       (NewInitialState.DoApplyAction 1890).IsTerminal = false) := by
  refine ⟨by decide, by decide, ?_⟩
  intro hcon
  have h : (ActionToMove 1890).IsValid ABALONE_INIT_CLASSIC 0 = false := by decide
  have hcp : (NewInitialState.DoApplyAction 1890).current_player_ = 0 := by
    simp [GameState.DoApplyAction, NewInitialState, h]
  rw [hcon.2.2.1] at hcp
  cases hcp

/-- Claim C8 (amended): in the classic layout b2 holds the mover's own marble,
    so the stated action (id 1890) is an illegal in-line push of one's own
    6-marble line and forfeits: the board is unchanged, the current player
    stays 0, the move counter stays 0, the outcome becomes player 1, the state
    is terminal and the returns are (-1, +1). -/
theorem C8_amended_forfeit :
    ActionToMove 1890 = ⟨0, ⟨7, 0⟩, ⟨7, 1⟩⟩ ∧
    BoardAt NewInitialState.board_ 7 1 = kPlayer1 ∧
    (ActionToMove 1890).IsValid NewInitialState.board_ NewInitialState.current_player_ = false ∧
    (NewInitialState.DoApplyAction 1890).board_ = NewInitialState.board_ ∧
    (NewInitialState.DoApplyAction 1890).current_player_ = 0 ∧
    (NewInitialState.DoApplyAction 1890).num_moves_ = 0 ∧
    (NewInitialState.DoApplyAction 1890).outcome_ = some 1 ∧
    (NewInitialState.DoApplyAction 1890).IsTerminal = true ∧
    (NewInitialState.DoApplyAction 1890).Returns = (-1, 1) := by
  have h : (ActionToMove 1890).IsValid ABALONE_INIT_CLASSIC 0 = false := by decide
  refine ⟨by decide, by decide, by decide, ?_, ?_, ?_, ?_, ?_, ?_⟩ <;>
    simp [GameState.DoApplyAction, NewInitialState, h, GameState.IsTerminal,
      GameState.Returns, ReturnsOf]

/-- Claim C2: for an in-line candidate (endpoints in grid, start holding the
    acting player's marble, end equal to start plus the direction offset),
    `Move::IsValid` is true iff the 6-cell line matches one of the six sumito
    patterns; in particular 2 own marbles may push exactly 1 opposing marble,
    and a 2-versus-2 push is rejected. -/
theorem C2_sumito_inline (m : Move) (b : Board) (p : Fin 2)
    (hb : 0 ≤ m.m_start.m_row ∧ m.m_start.m_row < 9 ∧
      0 ≤ m.m_start.m_column ∧ m.m_start.m_column < 9 ∧
      0 ≤ m.m_end.m_row ∧ m.m_end.m_row < 9 ∧
      0 ≤ m.m_end.m_column ∧ m.m_end.m_column < 9)
    (hstart : BoardAt b m.m_start.m_row m.m_start.m_column = PlayerToState p)
    (hinr : m.m_end.m_row - m.m_start.m_row = (Offsets m.m_direction).m_row)
    (hinc : m.m_end.m_column - m.m_start.m_column = (Offsets m.m_direction).m_column) :
    (m.IsValid b p = true ↔ specInlinePatterns b m p) ∧
    ((lineContent b m 1 = PlayerToState p ∧ lineContent b m 2 = PlayerToState (1 - p) ∧
      (lineContent b m 3 = kInvalid ∨ lineContent b m 3 = kEmpty)) →
      m.IsValid b p = true) ∧
    ((lineContent b m 1 = PlayerToState p ∧ lineContent b m 2 = PlayerToState (1 - p) ∧
      lineContent b m 3 = PlayerToState (1 - p)) →
      m.IsValid b p = false) := by
  have hiff := IsValid_inline_iff m b p hb hstart hinr hinc
  refine ⟨by unfold specInlinePatterns; exact hiff, ?_, ?_⟩
  · intro hx
    exact hiff.mpr (Or.inr (Or.inr (Or.inl hx)))
  · intro hx
    cases hval : m.IsValid b p
    · rfl
    · exfalso
      have hpat := hiff.mp hval
      have e1 := PlayerToState_ne_empty p
      have e2 := PlayerToState_ne_invalid p
      have e3 := PlayerToState_ne_empty (1 - p)
      have e4 := PlayerToState_ne_invalid (1 - p)
      have e5 := PlayerToState_ne_opp p
      rcases hpat with h | h | h | h | h | h <;> simp_all

theorem C2_sumito_inline_witness :
    BoardAt ABALONE_INIT_CLASSIC 6 2 = PlayerToState 0 ∧
    ((5 : ℤ) - 6 = (Offsets (2 : Fin 6)).m_row) ∧
    ((2 : ℤ) - 2 = (Offsets (2 : Fin 6)).m_column) ∧
    (((Move.mk 2 ⟨6, 2⟩ ⟨5, 2⟩).IsValid ABALONE_INIT_CLASSIC 0 = true ↔
      specInlinePatterns ABALONE_INIT_CLASSIC (Move.mk 2 ⟨6, 2⟩ ⟨5, 2⟩) 0)) ∧
    (Move.mk 2 ⟨6, 2⟩ ⟨5, 2⟩).IsValid ABALONE_INIT_CLASSIC 0 = true ∧
    specInlinePatterns ABALONE_INIT_CLASSIC (Move.mk 2 ⟨6, 2⟩ ⟨5, 2⟩) 0 := by
  have h := C2_sumito_inline (Move.mk 2 ⟨6, 2⟩ ⟨5, 2⟩) ABALONE_INIT_CLASSIC 0
    (by decide) (by decide) (by decide) (by decide)
  exact ⟨by decide, by decide, by decide, h.1, by decide, by decide⟩

/-- Claim C4 is false as stated: on `slideWrapBoard` with player 0, the
    slide-classified move {LEFT, (5, 7) -> (3, 8)} satisfies all of the
    claim's hypotheses and `Move::IsValid` accepts it, yet the claimed
    characterization (`specSlideLegal`) rejects it: the walk's third visited
    position (3, 9) is outside the grid, but the program's unguarded read
    `board_[3 * 9 + 9]` (abalone.cc:123) aliases cell (4, 0), an own
    marble. -/
theorem C4_counterexample :
    ((0 : ℤ) ≤ 5 ∧ (5 : ℤ) < 9 ∧ (0 : ℤ) ≤ 7 ∧ (7 : ℤ) < 9 ∧
      (0 : ℤ) ≤ 3 ∧ (3 : ℤ) < 9 ∧ (0 : ℤ) ≤ 8 ∧ (8 : ℤ) < 9) ∧
    BoardAt slideWrapBoard 5 7 = PlayerToState 0 ∧
    ¬ ((Offsets (3 : Fin 6)).m_row = (3 : ℤ) - 5 ∧
        (Offsets (3 : Fin 6)).m_column = (8 : ℤ) - 7) ∧
    (Move.mk 3 ⟨5, 7⟩ ⟨3, 8⟩).IsValid slideWrapBoard 0 = true ∧
    ¬ specSlideLegal slideWrapBoard (Move.mk 3 ⟨5, 7⟩ ⟨3, 8⟩) 0 := by
  exact ⟨by decide, by decide, by decide, by decide, by decide⟩

/-- Claim C4 (amended): for a slide candidate (endpoints in grid, start
    holding the acting player's marble, end minus start different from the
    direction offset), `Move::IsValid` is true iff both spans are at most 3
    cells, the normalized step vector is one of the 6 direction offsets, and
    every visited cell, read through the flat array as the program does
    (`BoardAtFlat`, so an out-of-range column wraps into the adjacent row),
    holds the mover's marble with an in-grid empty translation by the
    move-direction offset. -/
theorem C4_amended_slide_validation (m : Move) (b : Board) (p : Fin 2)
    (hb : 0 ≤ m.m_start.m_row ∧ m.m_start.m_row < 9 ∧
      0 ≤ m.m_start.m_column ∧ m.m_start.m_column < 9 ∧
      0 ≤ m.m_end.m_row ∧ m.m_end.m_row < 9 ∧
      0 ≤ m.m_end.m_column ∧ m.m_end.m_column < 9)
    (hstart : BoardAt b m.m_start.m_row m.m_start.m_column = PlayerToState p)
    (hslide : ¬ ((Offsets m.m_direction).m_row = m.m_end.m_row - m.m_start.m_row ∧
      (Offsets m.m_direction).m_column = m.m_end.m_column - m.m_start.m_column)) :
    m.IsValid b p = true ↔ flatSlideLegal b m p := by
  unfold flatSlideLegal
  exact IsValid_slide_iff m b p hb hstart hslide

theorem C4_amended_slide_validation_witness :
    BoardAt ABALONE_INIT_CLASSIC 6 4 = PlayerToState 0 ∧
    ¬ ((Offsets (2 : Fin 6)).m_row = (6 : ℤ) - 6 ∧
        (Offsets (2 : Fin 6)).m_column = (2 : ℤ) - 4) ∧
    ((Move.mk 2 ⟨6, 4⟩ ⟨6, 2⟩).IsValid ABALONE_INIT_CLASSIC 0 = true ↔
      flatSlideLegal ABALONE_INIT_CLASSIC (Move.mk 2 ⟨6, 4⟩ ⟨6, 2⟩) 0) ∧
    (Move.mk 2 ⟨6, 4⟩ ⟨6, 2⟩).IsValid ABALONE_INIT_CLASSIC 0 = true ∧
    flatSlideLegal ABALONE_INIT_CLASSIC (Move.mk 2 ⟨6, 4⟩ ⟨6, 2⟩) 0 := by
  have h := C4_amended_slide_validation (Move.mk 2 ⟨6, 4⟩ ⟨6, 2⟩) ABALONE_INIT_CLASSIC 0
    (by decide) (by decide) (by decide)
  exact ⟨by decide, by decide, h, by decide, by decide⟩

/-- Claim C10: a move executed through the slide branch of `Move::Apply`
    (end minus start different from the direction offset), valid or not,
    leaves each player's marble count unchanged. -/
theorem C10_slide_preserves_counts (b : Board) (m : Move)
    (hslide : ¬ ((Offsets m.m_direction).m_row = m.m_end.m_row - m.m_start.m_row ∧
      (Offsets m.m_direction).m_column = m.m_end.m_column - m.m_start.m_column)) :
    ∀ p : Fin 2, countCell (m.Apply b) (PlayerToState p) = countCell b (PlayerToState p) := by
  intro p
  rw [Move.Apply, if_pos (not_and_or.mp hslide), Move._ApplyParallelMove]
  exact applyParallelLoop_count _ _ _ _ _ (Offsets_ne_zero m.m_direction) _ _ b _ _

theorem C10_slide_preserves_counts_witness :
    ¬ ((Offsets (2 : Fin 6)).m_row = (6 : ℤ) - 6 ∧
        (Offsets (2 : Fin 6)).m_column = (2 : ℤ) - 4) ∧
    ∀ p : Fin 2,
      countCell ((Move.mk 2 ⟨6, 4⟩ ⟨6, 2⟩).Apply ABALONE_INIT_CLASSIC) (PlayerToState p) =
        countCell ABALONE_INIT_CLASSIC (PlayerToState p) :=
  ⟨by decide, C10_slide_preserves_counts ABALONE_INIT_CLASSIC (Move.mk 2 ⟨6, 4⟩ ⟨6, 2⟩)
    (by decide)⟩

/-- Claim C9: every cell that is `kInvalid` before an action applied through
    `DoApplyAction` on a non-terminal state is still `kInvalid` after it, for
    every action (legal slide, legal push, or forfeiting). -/
theorem C9_invalid_cells_immutable (s : GameState) (a : ℕ) (r c : ℤ)
    (hterm : s.IsTerminal = false)
    (hcell : BoardAt s.board_ r c = kInvalid) :
    BoardAt (s.DoApplyAction a).board_ r c = kInvalid := by
  cases hv : (ActionToMove a).IsValid s.board_ s.current_player_
  · simp only [GameState.DoApplyAction, hv, Bool.false_eq_true, if_false]
    exact hcell
  · simp only [GameState.DoApplyAction, hv, if_true]
    have hstart := (IsValid_elim hv).2.2.2.2.2.2.2.2
    rw [Move.Apply]
    by_cases hsl : (Offsets (ActionToMove a).m_direction).m_row ≠
        (ActionToMove a).m_end.m_row - (ActionToMove a).m_start.m_row ∨
        (Offsets (ActionToMove a).m_direction).m_column ≠
        (ActionToMove a).m_end.m_column - (ActionToMove a).m_start.m_column
    · rw [if_pos hsl, Move._ApplyParallelMove]
      apply applyParallelLoop_invalid_pres
      · rw [hstart]
        exact PlayerToState_ne_invalid s.current_player_
      · exact hcell
    · rw [if_neg hsl, Move._ApplySingleMove]
      exact applySingleLoop_invalid_pres _ _ r c 100 s.board_ _ _ kEmpty hcell

theorem C9_invalid_cells_immutable_witness :
    NewInitialState.IsTerminal = false ∧
    BoardAt NewInitialState.board_ 0 0 = kInvalid ∧
    BoardAt (NewInitialState.DoApplyAction 1690).board_ 0 0 = kInvalid :=
  ⟨by decide, by decide,
    C9_invalid_cells_immutable NewInitialState 1690 0 0 (by decide) (by decide)⟩

/-- Claim C7: after any legal in-line push, the total number of marbles never
    increases; it strictly decreases exactly when a marble is pushed beyond
    the board; otherwise each player's marble count is preserved and every
    marble of the contiguous run is shifted one step (the start cell is
    cleared and every visited cell up to the empty stop cell receives the
    content of its predecessor). -/
theorem C7_inline_push_conservation (b : Board) (p : Fin 2) (m : Move)
    (hinr : m.m_end.m_row - m.m_start.m_row = (Offsets m.m_direction).m_row)
    (hinc : m.m_end.m_column - m.m_start.m_column = (Offsets m.m_direction).m_column)
    (hv : m.IsValid b p = true) :
    totalMarbles (m.Apply b) ≤ totalMarbles b ∧
    (totalMarbles (m.Apply b) < totalMarbles b ↔ pushedOffBoard b m = true) ∧
    (pushedOffBoard b m = false →
      countCell (m.Apply b) kPlayer1 = countCell b kPlayer1 ∧
      countCell (m.Apply b) kPlayer2 = countCell b kPlayer2) ∧
    (∀ j : ℕ,
      (∀ k : ℕ, k < j → lineContent b m k ≠ kEmpty ∧ lineContent b m k ≠ kInvalid) →
      lineContent b m j = kEmpty →
      BoardAt (m.Apply b) m.m_start.m_row m.m_start.m_column = kEmpty ∧
      ∀ k : ℕ, 1 ≤ k → k ≤ j →
        BoardAt (m.Apply b)
          (m.m_start.m_row + k * (Offsets m.m_direction).m_row)
          (m.m_start.m_column + k * (Offsets m.m_direction).m_column) =
          lineContent b m (k - 1)) := by
  have helim := IsValid_elim hv
  have hstart := helim.2.2.2.2.2.2.2.2
  have hpat : specInlinePatterns b m p := by
    have hiff := IsValid_inline_iff m b p
      ⟨helim.1, helim.2.1, helim.2.2.1, helim.2.2.2.1, helim.2.2.2.2.1,
        helim.2.2.2.2.2.1, helim.2.2.2.2.2.2.1, helim.2.2.2.2.2.2.2.1⟩
      hstart hinr hinc
    unfold specInlinePatterns
    exact hiff.mp hv
  have hcore := C7_core b p m hstart hinr hinc hpat
  exact ⟨hcore.1, hcore.2.1, hcore.2.2,
    fun j hrun hstop => inline_shift b m hinr hinc j hrun hstop⟩

theorem C7_inline_push_conservation_witness :
    ((5 : ℤ) - 6 = (Offsets (2 : Fin 6)).m_row) ∧
    ((2 : ℤ) - 2 = (Offsets (2 : Fin 6)).m_column) ∧
    (Move.mk 2 ⟨6, 2⟩ ⟨5, 2⟩).IsValid ABALONE_INIT_CLASSIC 0 = true ∧
    (totalMarbles ((Move.mk 2 ⟨6, 2⟩ ⟨5, 2⟩).Apply ABALONE_INIT_CLASSIC) ≤
        totalMarbles ABALONE_INIT_CLASSIC ∧
      (totalMarbles ((Move.mk 2 ⟨6, 2⟩ ⟨5, 2⟩).Apply ABALONE_INIT_CLASSIC) <
          totalMarbles ABALONE_INIT_CLASSIC ↔
        pushedOffBoard ABALONE_INIT_CLASSIC (Move.mk 2 ⟨6, 2⟩ ⟨5, 2⟩) = true) ∧
      (pushedOffBoard ABALONE_INIT_CLASSIC (Move.mk 2 ⟨6, 2⟩ ⟨5, 2⟩) = false →
        countCell ((Move.mk 2 ⟨6, 2⟩ ⟨5, 2⟩).Apply ABALONE_INIT_CLASSIC) kPlayer1 =
          countCell ABALONE_INIT_CLASSIC kPlayer1 ∧
        countCell ((Move.mk 2 ⟨6, 2⟩ ⟨5, 2⟩).Apply ABALONE_INIT_CLASSIC) kPlayer2 =
          countCell ABALONE_INIT_CLASSIC kPlayer2) ∧
      (∀ j : ℕ,
        (∀ k : ℕ, k < j →
          lineContent ABALONE_INIT_CLASSIC (Move.mk 2 ⟨6, 2⟩ ⟨5, 2⟩) k ≠ kEmpty ∧
          lineContent ABALONE_INIT_CLASSIC (Move.mk 2 ⟨6, 2⟩ ⟨5, 2⟩) k ≠ kInvalid) →
        lineContent ABALONE_INIT_CLASSIC (Move.mk 2 ⟨6, 2⟩ ⟨5, 2⟩) j = kEmpty →
        BoardAt ((Move.mk 2 ⟨6, 2⟩ ⟨5, 2⟩).Apply ABALONE_INIT_CLASSIC)
          (Move.mk 2 ⟨6, 2⟩ ⟨5, 2⟩).m_start.m_row
          (Move.mk 2 ⟨6, 2⟩ ⟨5, 2⟩).m_start.m_column = kEmpty ∧
        ∀ k : ℕ, 1 ≤ k → k ≤ j →
          BoardAt ((Move.mk 2 ⟨6, 2⟩ ⟨5, 2⟩).Apply ABALONE_INIT_CLASSIC)
            ((Move.mk 2 ⟨6, 2⟩ ⟨5, 2⟩).m_start.m_row +
              k * (Offsets (Move.mk 2 ⟨6, 2⟩ ⟨5, 2⟩).m_direction).m_row)
            ((Move.mk 2 ⟨6, 2⟩ ⟨5, 2⟩).m_start.m_column +
              k * (Offsets (Move.mk 2 ⟨6, 2⟩ ⟨5, 2⟩).m_direction).m_column) =
            lineContent ABALONE_INIT_CLASSIC (Move.mk 2 ⟨6, 2⟩ ⟨5, 2⟩) (k - 1))) :=
  ⟨by decide, by decide, by decide,
    C7_inline_push_conservation ABALONE_INIT_CLASSIC 0 (Move.mk 2 ⟨6, 2⟩ ⟨5, 2⟩)
      (by decide) (by decide) (by decide)⟩

end Abalone
